import Mathlib

/-
Verification development for the cheddar_big_tic_tac_toe contract.

The contract entry points (make_available, make_unavailable, start_game,
make_move, give_up, stop_game) are embedded from src/src/lib.rs.  The
repository modules board.rs, config.rs, game.rs, internal.rs, stats.rs and
views.rs are not part of the provided sources, so the helpers they define
(board move checking and win detection, the expiry sweep, reward
distribution, the archive ring, per-account stats bookkeeping) are modelled
from the natural-language specification; each such definition carries a doc
comment that starts with "Modelled from the spec:".

Machine integers of the source (u128 balances, u64 timestamps) are embedded
as Nat; the one place the source performs a checked multiplication
(doubling a deposit with u128 checked_mul) is modelled with an explicit
bound of 2 ^ 128.  A contract call that panics is modelled as returning
none: on the hosting ledger an aborted call commits no state mutation.
-/

namespace BigTicTacToe

/- Account, token and game identifiers and timestamps and balances are all
embedded as Nat; account identifiers are numbered accounts. -/

/-- Basis points denominator used for all fee arithmetic (config.rs). -/
def BASIS_P : Nat := 10000

/-- First value that does not fit in a u128, the type of balances. -/
def U128_BOUND : Nat := 2 ^ 128

/-- One NEAR in yoctoNEAR. -/
def ONE_NEAR : Nat := 10 ^ 24

/-- Modelled from the spec: the configured minimum deposit for the native
token (config.rs is not in the provided sources; the exact value does not
matter for any claim). -/
def MIN_DEPOSIT_NEAR : Nat := ONE_NEAR / 10

/-- Modelled from the spec: the grace window added to the maximum game
duration when expiring stale availability records (config.rs is not in the
provided sources; the exact value does not matter for any claim). -/
def MAX_TIME_TO_BE_AVAILABLE : Nat := 3600 * 1000000000

/-- Token identifier standing for the native token string "near". -/
def NEAR_TOKEN : Nat := 0

/-- Board side length: the tests in lib.rs play coordinates up to (4, 4). -/
def BOARD_SIZE : Nat := 5

/-- Modelled from the spec: the winning run length (board.rs is not in the
provided sources; the spec leaves the value open, and the tests in lib.rs
only finish a game on a full length-5 diagonal, so the full board side is
used). -/
def WIN_LENGTH : Nat := 5

inductive Piece
  | X
  | O
deriving DecidableEq, Repr

def Piece.other : Piece → Piece
  | .X => .O
  | .O => .X

inductive Winner
  | X
  | O
  | Tie
deriving DecidableEq, Repr

inductive MoveError
  | GameAlreadyOver
  | InvalidPosition (row col : Nat)
  | TileFilled (other_piece : Piece) (row col : Nat)
deriving DecidableEq, Repr

abbrev Tiles := List (List (Option Piece))

structure Board where
  tiles : Tiles
  winner : Option Winner
deriving DecidableEq, Repr

def emptyTiles : Tiles :=
  List.replicate BOARD_SIZE (List.replicate BOARD_SIZE (none : Option Piece))

def emptyBoard : Board := { tiles := emptyTiles, winner := none }

def tileAt (t : Tiles) (r c : Nat) : Option Piece :=
  (t[r]?.bind (fun row => row[c]?)).join

def listModify {α : Type} (f : α → α) : Nat → List α → List α
  | _, [] => []
  | 0, a :: rest => f a :: rest
  | n + 1, a :: rest => a :: listModify f n rest

def setTile (t : Tiles) (r c : Nat) (v : Option Piece) : Tiles :=
  listModify (fun row => listModify (fun _ => v) c row) r t

/-- Modelled from the spec: board.rs check_move — a move is valid only if
both coordinates are within the grid and the cell is empty; a finished
board rejects every move; failures are typed (lib.rs lines 333-340 match
on exactly these three error kinds). -/
def Board.check_move (b : Board) (row col : Nat) : Except MoveError Unit :=
  if b.winner.isSome then .error .GameAlreadyOver
  else if row < BOARD_SIZE ∧ col < BOARD_SIZE then
    match tileAt b.tiles row col with
    | some p => .error (.TileFilled p row col)
    | none => .ok ()
  else .error (.InvalidPosition row col)

def tileAtI (t : Tiles) (r c : Int) : Option Piece :=
  if r < 0 ∨ c < 0 then none else tileAt t r.toNat c.toNat

/-- Count the contiguous cells holding piece p along direction (dr, dc)
starting from, and excluding, cell (r, c); fuel bounds the walk. -/
def countRay (t : Tiles) (p : Piece) : Nat → Int → Int → Int → Int → Nat
  | 0, _, _, _, _ => 0
  | fuel + 1, r, c, dr, dc =>
    if tileAtI t (r + dr) (c + dc) = some p then
      1 + countRay t p fuel (r + dr) (c + dc) dr dc
    else 0

/-- Maximal contiguous run of piece p through cell (r, c) along axis
(dr, dc). -/
def runLength (t : Tiles) (p : Piece) (r c : Nat) (dr dc : Int) : Nat :=
  1 + countRay t p BOARD_SIZE r c dr dc + countRay t p BOARD_SIZE r c (-dr) (-dc)

def boardFull (t : Tiles) : Bool :=
  t.all (fun row => row.all (fun cell => cell.isSome))

def winnerOfPiece : Piece → Winner
  | .X => .X
  | .O => .O

/-- Modelled from the spec: board.rs update_winner — from the just-played
cell scan the four directional axes, count the maximal contiguous run of
the same piece through that cell, record that piece as winner if any run
reaches the winning length; if no winner and every cell is occupied record
a tie; otherwise the winner stays unset. -/
def Board.update_winner (b : Board) (r c : Nat) : Board :=
  match tileAt b.tiles r c with
  | none => b
  | some p =>
    let best :=
      max (runLength b.tiles p r c 0 1)
        (max (runLength b.tiles p r c 1 0)
          (max (runLength b.tiles p r c 1 1) (runLength b.tiles p r c 1 (-1))))
    if WIN_LENGTH ≤ best then { b with winner := some (winnerOfPiece p) }
    else if boardFull b.tiles then { b with winner := some Winner.Tie }
    else b

inductive GameState
  | Active
  | Finished
deriving DecidableEq, Repr

structure GameDeposit where
  token_id : Nat
  balance : Nat
deriving DecidableEq, Repr

structure PlayerSlot where
  piece : Piece
  account_id : Nat
deriving DecidableEq, Repr

structure Game where
  players : PlayerSlot × PlayerSlot
  board : Board
  current_piece : Piece
  current_player_index : Nat
  game_state : GameState
  initiated_at : Nat
  last_turn_timestamp : Nat
  total_turns : Nat
  current_duration : Nat
  reward : GameDeposit
deriving DecidableEq, Repr

/-- Modelled from the spec: game.rs create_game — a fresh session with the
first argument in slot one holding piece X, the second in slot two holding
piece O, an empty board, zero turns, last-turn timestamp 0 until the first
move, and the combined wager as reward (the spec data model for
GameSession). -/
def Game.create_game (p1 p2 : Nat) (reward : GameDeposit)
    (now : Nat) : Game :=
  { players := (⟨Piece.X, p1⟩, ⟨Piece.O, p2⟩)
    board := emptyBoard
    current_piece := Piece.X
    current_player_index := 0
    game_state := GameState.Active
    initiated_at := now
    last_turn_timestamp := 0
    total_turns := 0
    current_duration := 0
    reward := reward }

def Game.change_state (g : Game) (s : GameState) : Game :=
  { g with game_state := s }

def Game.current_player_account_id (g : Game) : Nat :=
  if g.current_player_index = 0 then g.players.1.account_id
  else g.players.2.account_id

def Game.get_player_acc_by_piece (g : Game) (p : Piece) : Option Nat :=
  if g.players.1.piece = p then some g.players.1.account_id
  else if g.players.2.piece = p then some g.players.2.account_id
  else none

def Game.get_player_accounts (g : Game) : Nat × Nat :=
  (g.players.1.account_id, g.players.2.account_id)

/-! Association lists stand in for the persistent UnorderedMap collections:
lookup, overwrite insert, and removal by key. -/

def lookupA {α : Type} : List (Nat × α) → Nat → Option α
  | [], _ => none
  | e :: rest, k => if e.1 = k then some e.2 else lookupA rest k

def eraseA {α : Type} : List (Nat × α) → Nat → List (Nat × α)
  | [], _ => []
  | e :: rest, k => if e.1 = k then eraseA rest k else e :: eraseA rest k

def insertA {α : Type} (l : List (Nat × α)) (k : Nat) (v : α) : List (Nat × α) :=
  eraseA l k ++ [(k, v)]

structure GameConfig where
  token_id : Nat
  deposit : Nat
  opponent_id : Option Nat
  referrer_id : Option Nat
  created_at : Nat
deriving DecidableEq, Repr

structure GameConfigNear where
  opponent_id : Option Nat
  referrer_id : Option Nat
deriving DecidableEq, Repr

structure Stats where
  games_played : Nat
  victories_num : Nat
  penalties_num : Nat
  total_reward : List (Nat × Nat)
  total_affiliate_reward : List (Nat × Nat)
deriving DecidableEq, Repr

def Stats.empty : Stats :=
  { games_played := 0, victories_num := 0, penalties_num := 0
    total_reward := [], total_affiliate_reward := [] }

inductive GameResult
  | Win (account : Nat)
  | Tie
deriving DecidableEq, Repr

/-- Archived snapshot of a finished game (views.rs GameLimitedView, as
constructed at lib.rs lines 316-325, 409-418 and 464-473). -/
structure GameLimitedView where
  game_result : GameResult
  player1 : Nat
  player2 : Nat
  reward_or_tie_refund : GameDeposit
  board : Tiles
deriving DecidableEq, Repr

/-- The contract state (lib.rs lines 54-76).  The affiliate relationships
recorded by internal_add_referrer are kept in the referrers field. -/
structure Contract where
  whitelisted_tokens : List (Nat × Nat)
  games : List (Nat × Game)
  available_players : List (Nat × GameConfig)
  stats : List (Nat × Stats)
  referrers : List (Nat × Nat)
  next_game_id : Nat
  service_fee_percentage : Nat
  max_game_duration : Nat
  referrer_ratio : Nat
  max_turn_duration : Nat
  max_stored_games : Nat
  stored_games : List (Nat × GameLimitedView)
deriving DecidableEq, Repr

/-- The parts of the call environment the entry points read: predecessor
account, attached deposit, block timestamp, and the first random seed
byte. -/
structure Env where
  predecessor_account_id : Nat
  attached_deposit : Nat
  block_timestamp : Nat
  seed0 : Nat
deriving DecidableEq, Repr

def getStats (c : Contract) (a : Nat) : Stats :=
  (lookupA c.stats a).getD Stats.empty

def updStats (c : Contract) (a : Nat) (f : Stats → Stats) : Contract :=
  { c with stats := insertA c.stats a (f (getStats c a)) }

/-- Add amount to the per-token cumulative mapping (key unique). -/
def addReward (l : List (Nat × Nat)) (t : Nat) (amount : Nat) :
    List (Nat × Nat) :=
  insertA l t ((lookupA l t).getD 0 + amount)

/-- Modelled from the spec: internal_add_referrer (internal.rs is not in
the provided sources) — records a pending affiliate relationship,
first-write-wins: it does not overwrite an existing referrer. -/
def Contract.internal_add_referrer (c : Contract) (a r : Nat) : Contract :=
  match lookupA c.referrers a with
  | some _ => c
  | none => { c with referrers := insertA c.referrers a r }

/-! Reward settlement (spec section 4.5).  internal.rs is not in the
provided sources, so the arithmetic is modelled from the spec formulas. -/

/-- Modelled from the spec: fee = balance * fee_rate / DENOMINATOR, exact
integer arithmetic over basis points. -/
def settleFee (balance fee_rate : Nat) : Nat :=
  balance * fee_rate / BASIS_P

structure Settlement where
  player_payouts : List (Nat × Nat)
  referral_payouts : List (Nat × Nat)
  fee_retained : Nat
deriving DecidableEq, Repr

/-- Modelled from the spec: the fee is split between the two players
referrers (if present) proportional to referral_ratio, remainder retained
by the service. -/
def referralPayouts (fee referrer_ratio : Nat) (r1 r2 : Option Nat) :
    List (Nat × Nat) :=
  let total := fee * referrer_ratio / BASIS_P
  let share := total / 2
  (match r1 with | some a => [(a, share)] | none => []) ++
    (match r2 with | some a => [(a, share)] | none => [])

/-- Modelled from the spec: RewardSettlement — win case: winner receives
balance - fee; tie case: each player receives (balance - fee) / 2; the fee
is split with the referrers and the remainder is retained by the
service. -/
def settle (balance fee_rate referrer_ratio : Nat) (outcome : GameResult)
    (p1 p2 : Nat) (r1 r2 : Option Nat) : Settlement :=
  let fee := settleFee balance fee_rate
  let refs := referralPayouts fee referrer_ratio r1 r2
  let retained := fee - (refs.map (fun e => e.2)).sum
  match outcome with
  | .Win w => ⟨[(w, balance - fee)], refs, retained⟩
  | .Tie => ⟨[(p1, (balance - fee) / 2), (p2, (balance - fee) / 2)], refs, retained⟩

/-- Total value leaving the wager at settlement: player payouts, referral
payouts, and the fee remainder retained by the service. -/
def settleTotal (s : Settlement) : Nat :=
  (s.player_payouts.map (fun e => e.2)).sum +
    (s.referral_payouts.map (fun e => e.2)).sum + s.fee_retained

def Contract.applyPayouts (c : Contract) (t : Nat)
    (ps : List (Nat × Nat)) : Contract :=
  ps.foldl (fun acc p =>
    updStats acc p.1 (fun st =>
      { st with total_reward := addReward st.total_reward t p.2 })) c

def Contract.applyReferrals (c : Contract) (t : Nat)
    (ps : List (Nat × Nat)) : Contract :=
  ps.foldl (fun acc p =>
    updStats acc p.1 (fun st =>
      { st with total_affiliate_reward :=
          addReward st.total_affiliate_reward t p.2 })) c

/-- Modelled from the spec: internal_distribute_reward (internal.rs is not
in the provided sources) — computes the settlement for the session wager,
credits the payouts in the stats ledger (victory counter and cumulative
reward for a winner, the tie refund for both players on a tie, affiliate
earnings for referrers; the transfers themselves are asynchronous external
effects outside this state model) and returns the winner reward or the
per-player tie refund, the amount lib.rs stores in the archived
snapshot. -/
def Contract.internal_distribute_reward (c : Contract) (game : Game)
    (winner : Option Nat) : Contract × Nat :=
  let balance := game.reward.balance
  let fee := settleFee balance c.service_fee_percentage
  let p1 := game.get_player_accounts.1
  let p2 := game.get_player_accounts.2
  let outcome : GameResult := match winner with
    | some w => .Win w
    | none => .Tie
  let s := settle balance c.service_fee_percentage c.referrer_ratio outcome
    p1 p2 (lookupA c.referrers p1) (lookupA c.referrers p2)
  let c := c.applyPayouts game.reward.token_id s.player_payouts
  let c := c.applyReferrals game.reward.token_id s.referral_payouts
  let c := match winner with
    | some w => updStats c w (fun st => { st with victories_num := st.victories_num + 1 })
    | none => c
  (c, match winner with
    | some _ => balance - fee
    | none => (balance - fee) / 2)

/-! Archive ring, session bookkeeping and the expiry sweep. -/

/-- Keep only the last m elements of a list. -/
def lastN {α : Type} (m : Nat) (l : List α) : List α :=
  l.drop (l.length - m)

/-- Modelled from the spec: the Archive is a bounded collection capped at
the configured maximum; insertion evicts the oldest entry once the cap is
exceeded (insertion-ordered ring semantics). -/
def ringPush {α : Type} (m : Nat) (l : List α) (x : α) : List α :=
  lastN m (l ++ [x])

/-- Modelled from the spec: internal_store_game (internal.rs is not in the
provided sources) — append the snapshot to the archive, evicting the
oldest entry once max_stored_games is exceeded. -/
def Contract.internal_store_game (c : Contract) (gid : Nat)
    (v : GameLimitedView) : Contract :=
  { c with stored_games := ringPush c.max_stored_games c.stored_games (gid, v) }

def Contract.internal_update_game (c : Contract) (gid : Nat) (g : Game) :
    Contract :=
  { c with games := insertA c.games gid g }

/-- Modelled from the spec: internal_stop_game (internal.rs is not in the
provided sources) — drop the terminated session from the active games
collection (the tests in lib.rs assert that finished and expired games
leave get_active_games). -/
def Contract.internal_stop_game (c : Contract) (gid : Nat) : Contract :=
  { c with games := eraseA c.games gid }

/-- Elapsed time since the last turn, or since initiation if no move has
been made yet. -/
def Game.sinceLastTurn (g : Game) (now : Nat) : Nat :=
  if g.last_turn_timestamp = 0 then now - g.initiated_at
  else now - g.last_turn_timestamp

/-- Modelled from the spec: a session is stale for the sweep when its
recomputed game duration or the elapsed time since the last turn (or since
initiation if no move has been made yet) exceeds its configured bound. -/
def gameExpired (g : Game) (now : Nat) (mgd mt : Nat) : Prop :=
  now - g.initiated_at > mgd ∨ g.sinceLastTurn now > mt

instance (g : Game) (now : Nat) (mgd mt : Nat) :
    Decidable (gameExpired g now mgd mt) := by
  unfold gameExpired; infer_instance

/-- Bookkeeping of a forced timeout termination applied to the session
value g stored under gid: the looser is penalized in the stats ledger, the
other player is credited as winner through the normal settlement, the
snapshot is archived, and the session is dropped from the active games.
Modelled from the spec: ExpirySweep force-termination and the
timeout-forfeiture settlement path (internal.rs is not in the provided
sources). -/
def Contract.forceTerminate (c : Contract) (gid : Nat) (g : Game)
    (looser : Nat) : Contract :=
  let p1 := g.get_player_accounts.1
  let p2 := g.get_player_accounts.2
  let winner := if looser = p1 then p2 else p1
  let c := updStats c looser
    (fun st => { st with penalties_num := st.penalties_num + 1 })
  let pair := c.internal_distribute_reward g (some winner)
  let c := pair.1
  let view : GameLimitedView :=
    { game_result := .Win winner, player1 := p1, player2 := p2
      reward_or_tie_refund := ⟨g.reward.token_id, pair.2⟩
      board := g.board.tiles }
  let c := c.internal_store_game gid view
  { c with games := eraseA c.games gid }

/-- Modelled from the spec: internal_stop_expired_game (internal.rs is not
in the provided sources) — force-terminate the stored session with the
given account as the losing party. -/
def Contract.internal_stop_expired_game (c : Contract) (gid : Nat)
    (looser : Nat) : Contract :=
  match lookupA c.games gid with
  | none => c
  | some g => c.forceTerminate gid g looser

/-- Modelled from the spec: internal_ping_expired_players (internal.rs is
not in the provided sources) — evict every availability record whose age
exceeds max_game_duration plus the grace window; the refunds are
asynchronous external transfers outside this state model. -/
def playerFresh (cfg : GameConfig) (now : Nat) (mgd : Nat) : Bool :=
  decide (¬ now - cfg.created_at > mgd + MAX_TIME_TO_BE_AVAILABLE)

def Contract.internal_ping_expired_players (c : Contract) (now : Nat) :
    Contract :=
  { c with available_players :=
      c.available_players.filter (fun e => playerFresh e.2 now c.max_game_duration) }

/-- Modelled from the spec: internal_ping_expired_games (internal.rs is
not in the provided sources) — scan all Active sessions and force-terminate
every one whose game duration or time since the last turn exceeds its
bound, crediting the other player as winner and penalizing the current
mover.  The stats and archive bookkeeping is applied per expired session
and the expired sessions are removed from the games collection. -/
def Contract.internal_ping_expired_games (c : Contract) (now : Nat) :
    Contract :=
  let isStale := fun (e : Nat × Game) =>
    e.2.game_state = GameState.Active ∧
      gameExpired e.2 now c.max_game_duration c.max_turn_duration
  let stale := c.games.filter (fun e => decide (isStale e))
  let c1 := stale.foldl (fun acc e =>
    { acc.forceTerminate e.1 e.2 e.2.current_player_account_id
        with games := acc.games }) c
  { c1 with games := c.games.filter (fun e => ¬ decide (isStale e)) }

/-! The public entry points, embedded from lib.rs.  A panic is modelled as
returning none: the hosting ledger reverts every state mutation of an
aborted call, so none carries no successor state. -/

/-- lib.rs lines 127-162: make_available.  The helper
internal_check_player_available comes from the missing internal.rs and the
spec lists no corresponding failure for registration, so it is modelled as
a no-op. -/
def Contract.make_available (c : Contract) (env : Env)
    (game_config : Option GameConfigNear) : Option Contract :=
  let cur_timestamp := env.block_timestamp
  let c := c.internal_ping_expired_players cur_timestamp
  let account_id := env.predecessor_account_id
  if (lookupA c.available_players account_id).isSome then none
  else if env.attached_deposit < MIN_DEPOSIT_NEAR then none
  else
    let opponent_id := match game_config with
      | some gc => gc.opponent_id
      | none => none
    let referrer_id := match game_config with
      | some gc => gc.referrer_id
      | none => none
    let cfg : GameConfig :=
      { token_id := NEAR_TOKEN, deposit := env.attached_deposit
        opponent_id := opponent_id, referrer_id := referrer_id
        created_at := cur_timestamp }
    let c := { c with available_players := insertA c.available_players account_id cfg }
    some (match referrer_id with
      | some r => c.internal_add_referrer account_id r
      | none => c)

/-- lib.rs lines 164-182: make_unavailable.  assert_one_yocto aborts
unless exactly one yoctoNEAR is attached; the refund is an asynchronous
external transfer outside this state model. -/
def Contract.make_unavailable (c : Contract) (env : Env) : Option Contract :=
  if env.attached_deposit ≠ 1 then none
  else
    let account_id := env.predecessor_account_id
    match lookupA c.available_players account_id with
    | some _ => some { c with available_players := eraseA c.available_players account_id }
    | none => none

/-- u128 checked multiplication by two (lib.rs line 215). -/
def checkedDouble (d : Nat) : Option Nat :=
  if d * 2 < U128_BOUND then some (d * 2) else none

/-- lib.rs lines 184-264: start_game. -/
def Contract.start_game (c : Contract) (env : Env) (player_2_id : Nat) :
    Option (Contract × Nat) :=
  match lookupA c.available_players player_2_id with
  | none => none
  | some player_2_config =>
    let player_1_id := env.predecessor_account_id
    if player_1_id = player_2_id then none
    else match lookupA c.available_players player_1_id with
      | none => none
      | some player_1_config =>
        if match player_2_config.opponent_id with
          | some pid => decide (pid ≠ player_1_id)
          | none => false then none
        else if player_1_config.deposit ≠ player_2_config.deposit then none
        else if player_2_config.token_id ≠ player_1_config.token_id then none
        else match checkedDouble player_2_config.deposit with
          | none => none
          | some balance =>
            let game_id := c.next_game_id
            let token_id := player_2_config.token_id
            let reward : GameDeposit := ⟨token_id, balance⟩
            let game := if env.seed0 % 2 = 0 then
              Game.create_game player_2_id player_1_id reward env.block_timestamp
            else
              Game.create_game player_1_id player_2_id reward env.block_timestamp
            let game := game.change_state GameState.Active
            let c := { c with games := insertA c.games game_id game }
            let c := { c with next_game_id := c.next_game_id + 1 }
            let remaining := eraseA (eraseA c.available_players player_1_id) player_2_id
            let c := { c with available_players := remaining }
            let c := match player_1_config.referrer_id with
              | some r => c.internal_add_referrer player_1_id r
              | none => c
            let c := match player_2_config.referrer_id with
              | some r => c.internal_add_referrer player_2_id r
              | none => c
            let c := updStats c player_1_id
              (fun st => { st with games_played := st.games_played + 1 })
            let c := updStats c player_2_id
              (fun st => { st with games_played := st.games_played + 1 })
            some (c, game_id)

/-- The board with the move applied, the piece flipped, the mover index
switched, and the win detection run from the played cell (lib.rs lines
279-285). -/
def Game.movedGame (game0 : Game) (row col : Nat) : Game :=
  let board1 : Board :=
    { game0.board with tiles := setTile game0.board.tiles row col (some game0.current_piece) }
  { game0 with
    board := board1.update_winner row col
    current_piece := game0.current_piece.other
    current_player_index := 1 - game0.current_player_index }

/-- The winner account for a board winner tag: the player holding the
winning piece, or none on a tie (lib.rs lines 293-297). -/
def Game.winner_account (game : Game) (winner : Winner) : Option Nat :=
  match winner with
  | .X => game.get_player_acc_by_piece Piece.X
  | .O => game.get_player_acc_by_piece Piece.O
  | .Tie => none

/-- lib.rs lines 287-331: the winner-or-tie tail of make_move: mark the
session Finished, settle the reward (the tie refunds both players),
archive the snapshot with the two players in slot order, drop the session
and return the final board. -/
def Contract.moveView (c : Contract) (game_id : Nat) (game0 : Game)
    (winner : Winner) : GameLimitedView :=
  let game := game0.change_state GameState.Finished
  let c1 := c.internal_update_game game_id game
  let winner_account := game.winner_account winner
  let pair := c1.internal_distribute_reward game winner_account
  { game_result := match winner_account with
      | some w => .Win w
      | none => .Tie
    player1 := game.get_player_accounts.1
    player2 := game.get_player_accounts.2
    reward_or_tie_refund := ⟨game.reward.token_id, pair.2⟩
    board := game.board.tiles }

def Contract.moveFinish (c : Contract) (game_id : Nat) (game0 : Game)
    (winner : Winner) : Contract × Tiles :=
  let game := game0.change_state GameState.Finished
  let c1 := c.internal_update_game game_id game
  let pair := c1.internal_distribute_reward game (game.winner_account winner)
  let c2 := pair.1
  let c3 := c2.internal_store_game game_id (c.moveView game_id game0 winner)
  (c3.internal_stop_game game_id, game.board.tiles)

/-- lib.rs lines 271-385: the body of make_move after the expiry sweep
checkpoint.  In the timeout branches the stored session is terminated
before the move was persisted, exactly as in the source, while the
returned tiles include the move just played on the local copy. -/
def Contract.make_move_core (c : Contract) (env : Env) (game_id : Nat)
    (row col : Nat) : Option (Contract × Tiles) :=
  match lookupA c.games game_id with
  | none => none
  | some game0 =>
    if env.predecessor_account_id ≠ game0.current_player_account_id then none
    else if game0.game_state ≠ GameState.Active then none
    else match game0.board.check_move row col with
      | .error _ => none
      | .ok _ =>
        let game := game0.movedGame row col
        match game.board.winner with
        | some winner => some (c.moveFinish game_id game winner)
        | none =>
          if game.game_state = GameState.Active then
            let game := { game with total_turns := game.total_turns + 1 }
            let previous_turn_timestamp := game.last_turn_timestamp
            let game := { game with
              last_turn_timestamp := env.block_timestamp
              current_duration := env.block_timestamp - game.initiated_at }
            if previous_turn_timestamp = 0 then
              if env.block_timestamp - game.initiated_at > c.max_turn_duration then
                some (c.internal_stop_expired_game game_id env.predecessor_account_id,
                  game.board.tiles)
              else
                some (c.internal_update_game game_id game, game.board.tiles)
            else if game.last_turn_timestamp - previous_turn_timestamp > c.max_turn_duration then
              some (c.internal_stop_expired_game game_id env.predecessor_account_id,
                game.board.tiles)
            else if game.current_duration ≤ c.max_game_duration then
              some (c.internal_update_game game_id game, game.board.tiles)
            else
              some (c.internal_stop_expired_game game_id env.predecessor_account_id,
                game.board.tiles)
          else none

/-- lib.rs lines 266-385: make_move, the expiry sweep checkpoint followed
by move processing. -/
def Contract.make_move (c : Contract) (env : Env) (game_id : Nat)
    (row col : Nat) : Option (Contract × Tiles) :=
  (c.internal_ping_expired_games env.block_timestamp).make_move_core env game_id row col

/-- lib.rs lines 405-421: the tail of give_up once the winner is known:
settle the reward for the winner, mark the session Finished, archive the
snapshot with the two players in slot order, and drop the session. -/
def Contract.giveUpView (c : Contract) (game : Game)
    (winner player1 player2 : Nat) : GameLimitedView :=
  let pair := c.internal_distribute_reward game (some winner)
  { game_result := .Win winner, player1 := player1, player2 := player2
    reward_or_tie_refund := ⟨(game.change_state GameState.Finished).reward.token_id, pair.2⟩
    board := (game.change_state GameState.Finished).board.tiles }

def Contract.giveUpFinish (c : Contract) (game_id : Nat) (game0 : Game)
    (winner player1 player2 : Nat) : Contract :=
  let pair := c.internal_distribute_reward game0 (some winner)
  let c1 := pair.1
  let game := game0.change_state GameState.Finished
  let c2 := c1.internal_update_game game_id game
  let c3 := c2.internal_store_game game_id (c.giveUpView game0 winner player1 player2)
  c3.internal_stop_game game_id

/-- lib.rs lines 387-422: give_up. -/
def Contract.give_up (c : Contract) (env : Env) (game_id : Nat) :
    Option Contract :=
  if env.attached_deposit ≠ 1 then none
  else match lookupA c.games game_id with
    | none => none
    | some game =>
      if game.game_state ≠ GameState.Active then none
      else
        let account_id := env.predecessor_account_id
        let player1 := game.get_player_accounts.1
        let player2 := game.get_player_accounts.2
        if account_id = player1 then
          some (c.giveUpFinish game_id game player2 player1 player2)
        else if account_id = player2 then
          some (c.giveUpFinish game_id game player1 player1 player2)
        else none

/-- lib.rs lines 453-476: the tail of stop_game once the winner and
looser are known: penalize the looser in the stats ledger, settle the
reward for the winner, mark the session Finished, archive the snapshot
with the winner in the player1 field and the looser in the player2 field,
and drop the session. -/
def Contract.stopSettle (c : Contract) (game_id : Nat) (game : Game)
    (winner looser : Nat) : Contract :=
  let c := updStats c looser
    (fun st => { st with penalties_num := st.penalties_num + 1 })
  let pair := c.internal_distribute_reward game (some winner)
  let c := pair.1
  let game := game.change_state GameState.Finished
  let c := c.internal_update_game game_id game
  let view : GameLimitedView :=
    { game_result := .Win winner, player1 := winner, player2 := looser
      reward_or_tie_refund := ⟨game.reward.token_id, pair.2⟩
      board := game.board.tiles }
  let c := c.internal_store_game game_id view
  c.internal_stop_game game_id

/-- lib.rs lines 424-477: stop_game.  The archived snapshot stores the
declared winner in the player1 field and the penalized looser in the
player2 field (lines 466-467). -/
def Contract.stop_game (c : Contract) (env : Env) (game_id : Nat) :
    Option Contract :=
  match lookupA c.games game_id with
  | none => none
  | some game =>
    if game.game_state ≠ GameState.Active then none
    else
      let account_id := env.predecessor_account_id
      if account_id = game.current_player_account_id then none
      else
        let player1 := game.get_player_accounts.1
        let player2 := game.get_player_accounts.2
        let game := { game with
          current_duration := env.block_timestamp - game.initiated_at }
        if ¬ (game.current_duration ≥ c.max_game_duration ∨
            env.block_timestamp - game.last_turn_timestamp > c.max_turn_duration) then none
        else if account_id = player1 then
          some (c.stopSettle game_id game player1 player2)
        else if account_id = player2 then
          some (c.stopSettle game_id game player2 player1)
        else none

/-! Helper lemmas about the association-list operations. -/

theorem lookupA_append {α : Type} (l1 l2 : List (Nat × α)) (k : Nat) :
    lookupA (l1 ++ l2) k =
      match lookupA l1 k with
      | some v => some v
      | none => lookupA l2 k := by
  induction l1 with
  | nil => simp [lookupA]
  | cons e rest ih =>
    by_cases he : e.1 = k
    · simp [lookupA, he]
    · simpa [lookupA, he] using ih

theorem lookupA_eraseA_self {α : Type} (l : List (Nat × α)) (k : Nat) :
    lookupA (eraseA l k) k = none := by
  induction l with
  | nil => simp [eraseA, lookupA]
  | cons e rest ih =>
    by_cases h : e.1 = k
    · simpa [eraseA, h] using ih
    · simpa [eraseA, lookupA, h] using ih

theorem lookupA_eraseA_ne {α : Type} (l : List (Nat × α)) (k k' : Nat)
    (h : k' ≠ k) : lookupA (eraseA l k) k' = lookupA l k' := by
  induction l with
  | nil => simp [eraseA, lookupA]
  | cons e rest ih =>
    have h3 : ¬ k = k' := fun h' => h h'.symm
    by_cases he : e.1 = k
    · simpa [eraseA, lookupA, he, h3] using ih
    · by_cases he' : e.1 = k'
      · simp [eraseA, lookupA, he, he', fun h' => h h']
      · simpa [eraseA, lookupA, he, he'] using ih

theorem lookupA_insertA_self {α : Type} (l : List (Nat × α)) (k : Nat) (v : α) :
    lookupA (insertA l k v) k = some v := by
  rw [insertA, lookupA_append, lookupA_eraseA_self]
  simp [lookupA]

theorem lookupA_insertA_ne {α : Type} (l : List (Nat × α)) (k k' : Nat) (v : α)
    (h : k' ≠ k) : lookupA (insertA l k v) k' = lookupA l k' := by
  rw [insertA, lookupA_append, lookupA_eraseA_ne l k k' h]
  have h2 : k ≠ k' := fun h' => h h'.symm
  cases hl : lookupA l k' with
  | none => simp [lookupA, h2]
  | some w => simp

theorem lookupA_mem {α : Type} {l : List (Nat × α)} {k : Nat} {v : α}
    (h : lookupA l k = some v) : (k, v) ∈ l := by
  induction l with
  | nil => simp [lookupA] at h
  | cons e rest ih =>
    obtain ⟨e1, e2⟩ := e
    by_cases he : e1 = k
    · subst he
      simp [lookupA] at h
      subst h
      exact List.mem_cons_self _ _
    · simp [lookupA, he] at h
      exact List.mem_cons_of_mem _ (ih h)

theorem mem_eraseA {α : Type} {l : List (Nat × α)} {k : Nat} {e : Nat × α}
    (h : e ∈ eraseA l k) : e ∈ l := by
  induction l with
  | nil => simp [eraseA] at h
  | cons e0 rest ih =>
    by_cases he : e0.1 = k
    · simp only [eraseA, if_pos he] at h
      exact List.mem_cons_of_mem _ (ih h)
    · simp only [eraseA, if_neg he] at h
      rcases List.mem_cons.mp h with h1 | h1
      · exact h1 ▸ List.mem_cons_self _ _
      · exact List.mem_cons_of_mem _ (ih h1)

theorem mem_insertA {α : Type} {l : List (Nat × α)} {k : Nat} {v : α}
    {e : Nat × α} (h : e ∈ insertA l k v) : e ∈ l ∨ e = (k, v) := by
  rcases List.mem_append.mp h with h' | h'
  · exact Or.inl (mem_eraseA h')
  · exact Or.inr (by simpa using h')

theorem lookupA_filter_of_none {α : Type} (p : Nat × α → Bool)
    (l : List (Nat × α)) (k : Nat) (h : lookupA l k = none) :
    lookupA (l.filter p) k = none := by
  induction l with
  | nil => simp [lookupA]
  | cons e rest ih =>
    by_cases he : e.1 = k
    · simp [lookupA, he] at h
    · simp only [lookupA, if_neg he] at h
      by_cases hp : p e
      · simpa [List.filter_cons, hp, lookupA, he] using ih h
      · simpa [List.filter_cons, hp] using ih h

/-- On a collection with distinct keys, filtering removes the looked-up
entry exactly when the predicate rejects it. -/
theorem lookupA_filter_nodup {α : Type} (p : Nat × α → Bool)
    (l : List (Nat × α)) (k : Nat) (v : α)
    (hnd : (l.map Prod.fst).Nodup) (h : lookupA l k = some v) :
    lookupA (l.filter p) k = if p (k, v) then some v else none := by
  induction l with
  | nil => simp [lookupA] at h
  | cons e rest ih =>
    have hnd2 := hnd
    rw [List.map_cons, List.nodup_cons] at hnd2
    obtain ⟨e1, e2⟩ := e
    by_cases he : e1 = k
    · subst he
      simp [lookupA] at h
      subst h
      have hnone : lookupA rest e1 = none := by
        cases hrest : lookupA rest e1 with
        | none => rfl
        | some w =>
          exact absurd (List.mem_map_of_mem Prod.fst (lookupA_mem hrest)) hnd2.1
      by_cases hp : p (e1, e2)
      · simp [List.filter_cons, hp, lookupA]
      · simp only [List.filter_cons, hp, Bool.false_eq_true, if_false]
        exact lookupA_filter_of_none p rest e1 hnone
    · simp [lookupA, he] at h
      by_cases hp : p (e1, e2)
      · simpa [List.filter_cons, hp, lookupA, he] using ih hnd2.2 h
      · simpa [List.filter_cons, hp] using ih hnd2.2 h

/-! Claim C1: settlement fee arithmetic and the conservation law. -/

theorem settleFee_le (balance fee_rate : Nat) (hf : fee_rate ≤ BASIS_P) :
    settleFee balance fee_rate ≤ balance := by
  have h1 : balance * fee_rate ≤ balance * BASIS_P := Nat.mul_le_mul_left _ hf
  have h2 : balance * fee_rate / BASIS_P ≤ balance * BASIS_P / BASIS_P :=
    Nat.div_le_div_right h1
  have h3 : balance * BASIS_P / BASIS_P = balance :=
    Nat.mul_div_cancel _ (by norm_num [BASIS_P])
  calc settleFee balance fee_rate = balance * fee_rate / BASIS_P := rfl
    _ ≤ balance * BASIS_P / BASIS_P := h2
    _ = balance := h3

theorem referralPayouts_sum_le (fee rr : Nat) (hr : rr ≤ BASIS_P)
    (r1 r2 : Option Nat) :
    ((referralPayouts fee rr r1 r2).map (fun e => e.2)).sum ≤ fee := by
  have htot : fee * rr / BASIS_P ≤ fee := settleFee_le fee rr hr
  rcases r1 with _ | a <;> rcases r2 with _ | b <;>
    simp only [referralPayouts, List.map_append, List.map_cons, List.map_nil,
      List.sum_append, List.sum_cons, List.sum_nil, List.nil_append,
      List.append_nil] <;>
    omega

/-- C1 (amended): every settlement computes the fee as
balance * fee_rate / DENOMINATOR in exact integer arithmetic and pays the
winner balance - fee; the conservation law
sum(payouts) + fee_retained = combined wager holds exactly on the win,
resignation and timeout paths, and on the tie path it holds up to the
integer-halving remainder (balance - fee) % 2, hence exactly whenever
balance - fee is even.  The rate bounds are the configured basis-point
ranges. -/
theorem C1_settlement_conservation (balance fee_rate rratio : Nat)
    (w p1 p2 : Nat) (r1 r2 : Option Nat)
    (hf : fee_rate ≤ BASIS_P) (hr : rratio ≤ BASIS_P) :
    (settle balance fee_rate rratio (.Win w) p1 p2 r1 r2).player_payouts
        = [(w, balance - settleFee balance fee_rate)] ∧
    settleTotal (settle balance fee_rate rratio (.Win w) p1 p2 r1 r2) = balance ∧
    settleTotal (settle balance fee_rate rratio .Tie p1 p2 r1 r2)
        + (balance - settleFee balance fee_rate) % 2 = balance := by
  have hfee : settleFee balance fee_rate ≤ balance := settleFee_le balance fee_rate hf
  have href : ((referralPayouts (settleFee balance fee_rate) rratio r1 r2).map
      (fun e => e.2)).sum ≤ settleFee balance fee_rate :=
    referralPayouts_sum_le _ rratio hr r1 r2
  refine ⟨rfl, ?_, ?_⟩
  · simp only [settle, settleTotal, List.map_cons, List.map_nil, List.sum_cons,
      List.sum_nil]
    omega
  · simp only [settle, settleTotal, List.map_cons, List.map_nil, List.sum_cons,
      List.sum_nil]
    omega

/-- C1 counterexample: with combined wager 10 and fee rate 10 percent the
tie settlement pays 4 + 4 to the players and retains the fee 1, so the
payouts plus the retained fee come to 9, not the original combined
wager 10: the conservation law as stated fails on the tie path. -/
theorem C1_counterexample :
    settleTotal (settle 10 1000 9500 GameResult.Tie 1 2 none none) ≠ 10 := by
  decide

/-- C1 witness: the amended conservation law at a concrete settlement. -/
theorem C1_witness :
    settleTotal (settle 20 1000 9500 (GameResult.Win 1) 1 2 (some 3) (some 4)) = 20 ∧
    settleTotal (settle 20 1000 9500 GameResult.Tie 1 2 (some 3) (some 4))
        + (20 - settleFee 20 1000) % 2 = 20 := by
  have h := C1_settlement_conservation 20 1000 9500 1 1 2 (some 3) (some 4)
    (by norm_num [BASIS_P]) (by norm_num [BASIS_P])
  exact ⟨h.2.1, h.2.2⟩

/-! Claim C9: the one-yoctoNEAR guards of make_unavailable and give_up. -/

/-- C9: make_unavailable and give_up both start with assert_one_yocto
(lib.rs lines 166 and 389): any call with an attached deposit different
from one yoctoNEAR aborts with no state mutation, whatever the rest of the
state and arguments are. -/
theorem C9_one_yocto_guard (c : Contract) (env : Env) (game_id : Nat)
    (h : env.attached_deposit ≠ 1) :
    c.make_unavailable env = none ∧ c.give_up env game_id = none := by
  constructor
  · simp [Contract.make_unavailable, h]
  · simp [Contract.give_up, h]

/-- C9 witness: a concrete call with two yoctoNEAR attached aborts. -/
theorem C9_witness :
    ({ whitelisted_tokens := [], games := [], available_players := []
       stats := [], referrers := [], next_game_id := 0
       service_fee_percentage := 1000, max_game_duration := 1000
       referrer_ratio := 9500, max_turn_duration := 100
       max_stored_games := 50, stored_games := [] } : Contract).make_unavailable
        ⟨7, 2, 5, 0⟩ = none ∧
    ({ whitelisted_tokens := [], games := [], available_players := []
       stats := [], referrers := [], next_game_id := 0
       service_fee_percentage := 1000, max_game_duration := 1000
       referrer_ratio := 9500, max_turn_duration := 100
       max_stored_games := 50, stored_games := [] } : Contract).give_up
        ⟨7, 2, 5, 0⟩ 0 = none :=
  C9_one_yocto_guard _ ⟨7, 2, 5, 0⟩ 0 (by decide)

/-! Claim C8: bounded insertion-ordered ring semantics of the archive. -/

theorem lastN_of_le {α : Type} (m : Nat) (l : List α) (h : l.length ≤ m) :
    lastN m l = l := by
  unfold lastN
  rw [Nat.sub_eq_zero_of_le h, List.drop_zero]

theorem lastN_length_le {α : Type} (m : Nat) (l : List α) :
    (lastN m l).length ≤ m := by
  unfold lastN
  rw [List.length_drop]
  omega

theorem lastN_lastN_append {α : Type} (m : Nat) (t l : List α) :
    lastN m (lastN m t ++ l) = lastN m (t ++ l) := by
  by_cases h : t.length ≤ m
  · rw [lastN_of_le m t h]
  · push_neg at h
    have hk : t.length - m ≤ t.length := Nat.sub_le _ _
    unfold lastN
    rw [← List.drop_append_of_le_length hk, List.drop_drop]
    congr 1
    simp only [List.length_drop, List.length_append]
    omega

theorem foldl_ringPush {α : Type} (m : Nat) (items : List α) :
    ∀ acc : List α, acc.length ≤ m →
      items.foldl (fun a x => ringPush m a x) acc = lastN m (acc ++ items) := by
  induction items with
  | nil =>
    intro acc hacc
    rw [List.foldl_nil, List.append_nil, lastN_of_le m acc hacc]
  | cons x rest ih =>
    intro acc hacc
    rw [List.foldl_cons]
    have hstep : ringPush m acc x = lastN m (acc ++ [x]) := rfl
    rw [ih (ringPush m acc x) (by rw [hstep]; exact lastN_length_le m _), hstep,
      lastN_lastN_append]
    congr 1
    simp

/-- Insert a sequence of finished-game snapshots into the archive. -/
def Contract.storeAll (c : Contract) (items : List (Nat × GameLimitedView)) :
    Contract :=
  items.foldl (fun acc e => acc.internal_store_game e.1 e.2) c

theorem storeAll_stored_games (c : Contract) (items : List (Nat × GameLimitedView)) :
    (c.storeAll items).stored_games =
      items.foldl (fun a x => ringPush c.max_stored_games a x) c.stored_games := by
  induction items generalizing c with
  | nil => rfl
  | cons x rest ih =>
    rw [Contract.storeAll, List.foldl_cons, List.foldl_cons]
    have h1 : (c.internal_store_game x.1 x.2).storeAll rest =
        (c.internal_store_game x.1 x.2).storeAll rest := rfl
    have h2 := ih (c.internal_store_game x.1 x.2)
    rw [Contract.storeAll] at h2
    rw [h2]
    rfl

/-- C8: archive ring bound.  Starting from an empty archive, inserting
max_stored_games + 1 finished games through internal_store_game leaves
exactly max_stored_games entries: the first (oldest) inserted snapshot has
been evicted and the survivors are the later insertions in order. -/
theorem C8_archive_ring_bound (c : Contract) (items : List (Nat × GameLimitedView))
    (hempty : c.stored_games = [])
    (hlen : items.length = c.max_stored_games + 1)
    (hpos : 1 ≤ c.max_stored_games) :
    (c.storeAll items).stored_games = items.drop 1 ∧
    (c.storeAll items).stored_games.length = c.max_stored_games ∧
    (∀ x, items.head? = some x → x ∉ items.drop 1 →
      x ∉ (c.storeAll items).stored_games) := by
  have hmain : (c.storeAll items).stored_games = items.drop 1 := by
    rw [storeAll_stored_games,
      foldl_ringPush c.max_stored_games items c.stored_games (by rw [hempty]; simp),
      hempty, List.nil_append]
    unfold lastN
    rw [hlen]
    congr 1
    omega
  refine ⟨hmain, ?_, ?_⟩
  · rw [hmain, List.length_drop, hlen]
    omega
  · intro x hx hnot
    rw [hmain]
    exact hnot

/-- C8 witness: a concrete archive with cap 2 receiving three snapshots
keeps the last two and evicts the first. -/
theorem C8_witness :
    (({ whitelisted_tokens := [], games := [], available_players := []
        stats := [], referrers := [], next_game_id := 0
        service_fee_percentage := 1000, max_game_duration := 1000
        referrer_ratio := 9500, max_turn_duration := 100
        max_stored_games := 2, stored_games := [] } : Contract).storeAll
      [(0, ⟨GameResult.Tie, 1, 2, ⟨0, 5⟩, []⟩),
        (1, ⟨GameResult.Tie, 3, 4, ⟨0, 6⟩, []⟩),
        (2, ⟨GameResult.Tie, 5, 6, ⟨0, 7⟩, []⟩)]).stored_games =
      [(1, ⟨GameResult.Tie, 3, 4, ⟨0, 6⟩, []⟩),
        (2, ⟨GameResult.Tie, 5, 6, ⟨0, 7⟩, []⟩)] := by
  have h := C8_archive_ring_bound
    { whitelisted_tokens := [], games := [], available_players := []
      stats := [], referrers := [], next_game_id := 0
      service_fee_percentage := 1000, max_game_duration := 1000
      referrer_ratio := 9500, max_turn_duration := 100
      max_stored_games := 2, stored_games := [] }
    [(0, ⟨GameResult.Tie, 1, 2, ⟨0, 5⟩, []⟩),
      (1, ⟨GameResult.Tie, 3, 4, ⟨0, 6⟩, []⟩),
      (2, ⟨GameResult.Tie, 5, 6, ⟨0, 7⟩, []⟩)] rfl (by decide) (by decide)
  exact h.1

/-! Bookkeeping toolkit: which parts of the state each helper touches. -/

theorem getStats_updStats_self (c : Contract) (a : Nat) (f : Stats → Stats) :
    getStats (updStats c a f) a = f (getStats c a) := by
  unfold getStats updStats
  rw [lookupA_insertA_self]
  rfl

theorem getStats_updStats_ne (c : Contract) (a b : Nat) (f : Stats → Stats)
    (h : b ≠ a) : getStats (updStats c a f) b = getStats c b := by
  unfold getStats updStats
  rw [lookupA_insertA_ne _ _ _ _ h]

theorem applyPayouts_stats_only (t : Nat) :
    ∀ (ps : List (Nat × Nat)) (c : Contract),
      ∃ s, c.applyPayouts t ps = { c with stats := s } := by
  intro ps
  induction ps with
  | nil => exact fun c => ⟨c.stats, rfl⟩
  | cons p rest ih =>
    intro c
    obtain ⟨s, hs⟩ := ih (updStats c p.1
      (fun st => { st with total_reward := addReward st.total_reward t p.2 }))
    exact ⟨s, hs⟩

theorem applyReferrals_stats_only (t : Nat) :
    ∀ (ps : List (Nat × Nat)) (c : Contract),
      ∃ s, c.applyReferrals t ps = { c with stats := s } := by
  intro ps
  induction ps with
  | nil => exact fun c => ⟨c.stats, rfl⟩
  | cons p rest ih =>
    intro c
    obtain ⟨s, hs⟩ := ih (updStats c p.1
      (fun st => { st with total_affiliate_reward := addReward st.total_affiliate_reward t p.2 }))
    exact ⟨s, hs⟩

theorem updStats_games (c : Contract) (a : Nat) (f : Stats → Stats) :
    (updStats c a f).games = c.games := rfl

theorem updStats_available_players (c : Contract) (a : Nat) (f : Stats → Stats) :
    (updStats c a f).available_players = c.available_players := rfl

theorem updStats_stored_games (c : Contract) (a : Nat) (f : Stats → Stats) :
    (updStats c a f).stored_games = c.stored_games := rfl

theorem applyPayouts_games (t : Nat) :
    ∀ (ps : List (Nat × Nat)) (c : Contract), (c.applyPayouts t ps).games = c.games := by
  intro ps
  induction ps with
  | nil => intro c; rfl
  | cons p rest ih =>
    intro c
    show ((updStats c p.1 _).applyPayouts t rest).games = c.games
    rw [ih]
    rfl

theorem applyPayouts_stored_games (t : Nat) :
    ∀ (ps : List (Nat × Nat)) (c : Contract),
      (c.applyPayouts t ps).stored_games = c.stored_games := by
  intro ps
  induction ps with
  | nil => intro c; rfl
  | cons p rest ih =>
    intro c
    show ((updStats c p.1 _).applyPayouts t rest).stored_games = c.stored_games
    rw [ih]
    rfl

theorem applyPayouts_available_players (t : Nat) :
    ∀ (ps : List (Nat × Nat)) (c : Contract),
      (c.applyPayouts t ps).available_players = c.available_players := by
  intro ps
  induction ps with
  | nil => intro c; rfl
  | cons p rest ih =>
    intro c
    show ((updStats c p.1 _).applyPayouts t rest).available_players = c.available_players
    rw [ih]
    rfl

theorem applyReferrals_games (t : Nat) :
    ∀ (ps : List (Nat × Nat)) (c : Contract), (c.applyReferrals t ps).games = c.games := by
  intro ps
  induction ps with
  | nil => intro c; rfl
  | cons p rest ih =>
    intro c
    show ((updStats c p.1 _).applyReferrals t rest).games = c.games
    rw [ih]
    rfl

theorem applyReferrals_stored_games (t : Nat) :
    ∀ (ps : List (Nat × Nat)) (c : Contract),
      (c.applyReferrals t ps).stored_games = c.stored_games := by
  intro ps
  induction ps with
  | nil => intro c; rfl
  | cons p rest ih =>
    intro c
    show ((updStats c p.1 _).applyReferrals t rest).stored_games = c.stored_games
    rw [ih]
    rfl

theorem applyReferrals_available_players (t : Nat) :
    ∀ (ps : List (Nat × Nat)) (c : Contract),
      (c.applyReferrals t ps).available_players = c.available_players := by
  intro ps
  induction ps with
  | nil => intro c; rfl
  | cons p rest ih =>
    intro c
    show ((updStats c p.1 _).applyReferrals t rest).available_players = c.available_players
    rw [ih]
    rfl

/-- Settlement touches only the stats ledger, never the games map. -/
theorem distribute_games (c : Contract) (g : Game) (w : Option Nat) :
    (c.internal_distribute_reward g w).1.games = c.games := by
  cases w <;>
    simp only [Contract.internal_distribute_reward, updStats_games,
      applyReferrals_games, applyPayouts_games]

theorem distribute_stored_games (c : Contract) (g : Game) (w : Option Nat) :
    (c.internal_distribute_reward g w).1.stored_games = c.stored_games := by
  cases w <;>
    simp only [Contract.internal_distribute_reward, updStats_stored_games,
      applyReferrals_stored_games, applyPayouts_stored_games]

theorem distribute_available_players (c : Contract) (g : Game) (w : Option Nat) :
    (c.internal_distribute_reward g w).1.available_players = c.available_players := by
  cases w <;>
    simp only [Contract.internal_distribute_reward, updStats_available_players,
      applyReferrals_available_players, applyPayouts_available_players]

theorem add_referrer_referrers_only (c : Contract) (a r : Nat) :
    ∃ rs, c.internal_add_referrer a r = { c with referrers := rs } := by
  unfold Contract.internal_add_referrer
  cases lookupA c.referrers a with
  | none => exact ⟨_, rfl⟩
  | some _ => exact ⟨c.referrers, rfl⟩

/-- The per-turn payout bookkeeping never touches the penalty counters. -/
theorem applyPayouts_penalties (t : Nat) :
    ∀ (ps : List (Nat × Nat)) (c : Contract) (a : Nat),
      (getStats (c.applyPayouts t ps) a).penalties_num =
        (getStats c a).penalties_num := by
  intro ps
  induction ps with
  | nil => intro c a; rfl
  | cons p rest ih =>
    intro c a
    show (getStats ((updStats c p.1 _).applyPayouts t rest) a).penalties_num = _
    rw [ih]
    by_cases hb : a = p.1
    · subst hb
      rw [getStats_updStats_self]
    · rw [getStats_updStats_ne _ _ _ _ hb]

theorem applyReferrals_penalties (t : Nat) :
    ∀ (ps : List (Nat × Nat)) (c : Contract) (a : Nat),
      (getStats (c.applyReferrals t ps) a).penalties_num =
        (getStats c a).penalties_num := by
  intro ps
  induction ps with
  | nil => intro c a; rfl
  | cons p rest ih =>
    intro c a
    show (getStats ((updStats c p.1 _).applyReferrals t rest) a).penalties_num = _
    rw [ih]
    by_cases hb : a = p.1
    · subst hb
      rw [getStats_updStats_self]
    · rw [getStats_updStats_ne _ _ _ _ hb]

theorem applyPayouts_victories (t : Nat) :
    ∀ (ps : List (Nat × Nat)) (c : Contract) (a : Nat),
      (getStats (c.applyPayouts t ps) a).victories_num =
        (getStats c a).victories_num := by
  intro ps
  induction ps with
  | nil => intro c a; rfl
  | cons p rest ih =>
    intro c a
    show (getStats ((updStats c p.1 _).applyPayouts t rest) a).victories_num = _
    rw [ih]
    by_cases hb : a = p.1
    · subst hb
      rw [getStats_updStats_self]
    · rw [getStats_updStats_ne _ _ _ _ hb]

theorem applyReferrals_victories (t : Nat) :
    ∀ (ps : List (Nat × Nat)) (c : Contract) (a : Nat),
      (getStats (c.applyReferrals t ps) a).victories_num =
        (getStats c a).victories_num := by
  intro ps
  induction ps with
  | nil => intro c a; rfl
  | cons p rest ih =>
    intro c a
    show (getStats ((updStats c p.1 _).applyReferrals t rest) a).victories_num = _
    rw [ih]
    by_cases hb : a = p.1
    · subst hb
      rw [getStats_updStats_self]
    · rw [getStats_updStats_ne _ _ _ _ hb]

/-- Settlement never touches the penalty counters of anybody. -/
theorem distribute_penalties (c : Contract) (g : Game) (w : Option Nat) (a : Nat) :
    (getStats (c.internal_distribute_reward g w).1 a).penalties_num =
      (getStats c a).penalties_num := by
  unfold Contract.internal_distribute_reward
  cases w with
  | none =>
    show (getStats ((c.applyPayouts _ _).applyReferrals _ _) a).penalties_num = _
    rw [applyReferrals_penalties, applyPayouts_penalties]
  | some w0 =>
    show (getStats (updStats ((c.applyPayouts _ _).applyReferrals _ _) w0 _) a).penalties_num = _
    by_cases hb : a = w0
    · subst hb
      rw [getStats_updStats_self]
      show (getStats ((c.applyPayouts _ _).applyReferrals _ _) a).penalties_num = _
      rw [applyReferrals_penalties, applyPayouts_penalties]
    · rw [getStats_updStats_ne _ _ _ _ hb, applyReferrals_penalties,
        applyPayouts_penalties]

/-- Settlement with a winner increments exactly the winner victory
counter. -/
theorem distribute_victories_winner (c : Contract) (g : Game) (w : Nat) :
    (getStats (c.internal_distribute_reward g (some w)).1 w).victories_num =
      (getStats c w).victories_num + 1 := by
  unfold Contract.internal_distribute_reward
  show (getStats (updStats ((c.applyPayouts _ _).applyReferrals _ _) w _) w).victories_num = _
  rw [getStats_updStats_self]
  show (getStats ((c.applyPayouts _ _).applyReferrals _ _) w).victories_num + 1 = _
  rw [applyReferrals_victories, applyPayouts_victories]

theorem add_referrer_games (c : Contract) (a r : Nat) :
    (c.internal_add_referrer a r).games = c.games := by
  unfold Contract.internal_add_referrer
  cases hx : lookupA c.referrers a <;> rfl

theorem add_referrer_available_players (c : Contract) (a r : Nat) :
    (c.internal_add_referrer a r).available_players = c.available_players := by
  unfold Contract.internal_add_referrer
  cases hx : lookupA c.referrers a <;> rfl

theorem add_referrer_stored_games (c : Contract) (a r : Nat) :
    (c.internal_add_referrer a r).stored_games = c.stored_games := by
  unfold Contract.internal_add_referrer
  cases hx : lookupA c.referrers a <;> rfl

theorem maybe_referrer_games (c : Contract) (a : Nat) (r : Option Nat) :
    (match r with
      | some rr => c.internal_add_referrer a rr
      | none => c).games = c.games := by
  cases r with
  | none => rfl
  | some rr => exact add_referrer_games c a rr

theorem maybe_referrer_available_players (c : Contract) (a : Nat) (r : Option Nat) :
    (match r with
      | some rr => c.internal_add_referrer a rr
      | none => c).available_players = c.available_players := by
  cases r with
  | none => rfl
  | some rr => exact add_referrer_available_players c a rr

/-! Claim C7: the failure conditions and the success effects of
start_game. -/

/-- C7: start_game aborts with no mutation when the opponent is not
registered as available, when the initiator equals the opponent, when the
opponent record names a different fixed opponent, when the two records
deposits or tokens differ, or when doubling the deposit overflows u128
(the checked multiplication aborts instead of wrapping); on success both
availability records are removed and the created session carries the
combined wager 2 x deposit, which the overflow check has bounded. -/
theorem C7_start_game_guards (c : Contract) (env : Env) (p2 : Nat) :
    (lookupA c.available_players p2 = none → c.start_game env p2 = none) ∧
    (env.predecessor_account_id = p2 → c.start_game env p2 = none) ∧
    (∀ cfg2 pid, lookupA c.available_players p2 = some cfg2 →
      cfg2.opponent_id = some pid → pid ≠ env.predecessor_account_id →
      c.start_game env p2 = none) ∧
    (∀ cfg1 cfg2, lookupA c.available_players env.predecessor_account_id = some cfg1 →
      lookupA c.available_players p2 = some cfg2 → cfg1.deposit ≠ cfg2.deposit →
      c.start_game env p2 = none) ∧
    (∀ cfg1 cfg2, lookupA c.available_players env.predecessor_account_id = some cfg1 →
      lookupA c.available_players p2 = some cfg2 → cfg2.token_id ≠ cfg1.token_id →
      c.start_game env p2 = none) ∧
    (∀ cfg2, lookupA c.available_players p2 = some cfg2 →
      U128_BOUND ≤ cfg2.deposit * 2 → c.start_game env p2 = none) ∧
    (∀ c' gid, c.start_game env p2 = some (c', gid) →
      lookupA c'.available_players env.predecessor_account_id = none ∧
      lookupA c'.available_players p2 = none ∧
      ∃ game cfg2, lookupA c.available_players p2 = some cfg2 ∧
        lookupA c'.games gid = some game ∧
        game.reward.balance = cfg2.deposit * 2 ∧
        cfg2.deposit * 2 < U128_BOUND) := by
  refine ⟨?_, ?_, ?_, ?_, ?_, ?_, ?_⟩
  · intro h
    simp [Contract.start_game, h]
  · intro h
    cases hl : lookupA c.available_players p2 with
    | none => simp [Contract.start_game, hl]
    | some cfg2 => simp [Contract.start_game, hl, h]
  · intro cfg2 pid hl2 hop hne
    simp only [Contract.start_game, hl2]
    by_cases hp : env.predecessor_account_id = p2
    · simp [hp]
    · simp only [if_neg hp]
      cases hl1 : lookupA c.available_players env.predecessor_account_id with
      | none => rfl
      | some cfg1 => simp [hop, hne]
  · intro cfg1 cfg2 hl1 hl2 hdep
    simp only [Contract.start_game, hl2]
    by_cases hp : env.predecessor_account_id = p2
    · simp [hp]
    · simp only [if_neg hp, hl1]
      cases hop : cfg2.opponent_id with
      | none => simp [hdep]
      | some pid =>
        by_cases hpid : pid = env.predecessor_account_id
        · simp [hpid, hdep]
        · simp [hpid]
  · intro cfg1 cfg2 hl1 hl2 htok
    simp only [Contract.start_game, hl2]
    by_cases hp : env.predecessor_account_id = p2
    · simp [hp]
    · simp only [if_neg hp, hl1]
      cases hop : cfg2.opponent_id with
      | none =>
        by_cases hdep : cfg1.deposit = cfg2.deposit
        · simp [hdep, htok]
        · simp [hdep]
      | some pid =>
        by_cases hpid : pid = env.predecessor_account_id
        · by_cases hdep : cfg1.deposit = cfg2.deposit
          · simp [hpid, hdep, htok]
          · simp [hpid, hdep]
        · simp [hpid]
  · intro cfg2 hl2 hov
    simp only [Contract.start_game, hl2]
    have hcd : checkedDouble cfg2.deposit = none := by
      unfold checkedDouble
      rw [if_neg (Nat.not_lt.mpr hov)]
    by_cases hp : env.predecessor_account_id = p2
    · simp [hp]
    · simp only [if_neg hp]
      cases hl1 : lookupA c.available_players env.predecessor_account_id with
      | none => rfl
      | some cfg1 =>
        cases hop : cfg2.opponent_id with
        | none =>
          by_cases hdep : cfg1.deposit = cfg2.deposit
          · by_cases htok : cfg2.token_id = cfg1.token_id
            · simp [hdep, htok, hcd]
            · simp [hdep, htok]
          · simp [hdep]
        | some pid =>
          by_cases hpid : pid = env.predecessor_account_id
          · by_cases hdep : cfg1.deposit = cfg2.deposit
            · by_cases htok : cfg2.token_id = cfg1.token_id
              · simp [hpid, hdep, htok, hcd]
              · simp [hpid, hdep, htok]
            · simp [hpid, hdep]
          · simp [hpid]
  · intro c' gid h
    simp only [Contract.start_game] at h
    cases hl2 : lookupA c.available_players p2 with
    | none => simp only [hl2] at h; exact absurd h (by simp)
    | some cfg2 =>
      simp only [hl2] at h
      by_cases hp : env.predecessor_account_id = p2
      · rw [if_pos hp] at h; exact absurd h (by simp)
      · rw [if_neg hp] at h
        cases hl1 : lookupA c.available_players env.predecessor_account_id with
        | none => simp only [hl1] at h; exact absurd h (by simp)
        | some cfg1 =>
          simp only [hl1] at h
          split at h
          · exact absurd h (by simp)
          · split at h
            · exact absurd h (by simp)
            · split at h
              · exact absurd h (by simp)
              · cases hcd : checkedDouble cfg2.deposit with
                | none => simp only [hcd] at h; exact absurd h (by simp)
                | some balance =>
                  simp only [hcd] at h
                  simp only [Option.some.injEq, Prod.mk.injEq] at h
                  obtain ⟨hc', hgid⟩ := h
                  have hbal : balance = cfg2.deposit * 2 ∧ cfg2.deposit * 2 < U128_BOUND := by
                    unfold checkedDouble at hcd
                    by_cases hlt : cfg2.deposit * 2 < U128_BOUND
                    · rw [if_pos hlt] at hcd
                      exact ⟨(Option.some.injEq _ _ ▸ hcd).symm, hlt⟩
                    · rw [if_neg hlt] at hcd
                      exact absurd hcd (by simp)
                  subst hc'
                  refine ⟨?_, ?_, ?_⟩
                  · rw [updStats_available_players, updStats_available_players,
                      maybe_referrer_available_players, maybe_referrer_available_players]
                    show lookupA (eraseA (eraseA c.available_players
                      env.predecessor_account_id) p2) env.predecessor_account_id = none
                    rw [lookupA_eraseA_ne _ _ _ (fun hx => hp hx), lookupA_eraseA_self]
                  · rw [updStats_available_players, updStats_available_players,
                      maybe_referrer_available_players, maybe_referrer_available_players]
                    show lookupA (eraseA (eraseA c.available_players
                      env.predecessor_account_id) p2) p2 = none
                    rw [lookupA_eraseA_self]
                  · refine ⟨((if env.seed0 % 2 = 0 then
                        Game.create_game p2 env.predecessor_account_id
                          ⟨cfg2.token_id, balance⟩ env.block_timestamp
                        else Game.create_game env.predecessor_account_id p2
                          ⟨cfg2.token_id, balance⟩ env.block_timestamp).change_state
                          GameState.Active), cfg2, rfl, ?_, ?_, hbal.2⟩
                    · rw [updStats_games, updStats_games, maybe_referrer_games,
                        maybe_referrer_games]
                      show lookupA (insertA c.games c.next_game_id _) gid = some _
                      rw [← hgid]
                      exact lookupA_insertA_self _ _ _
                    · show ((if env.seed0 % 2 = 0 then
                        Game.create_game p2 env.predecessor_account_id
                          ⟨cfg2.token_id, balance⟩ env.block_timestamp
                        else Game.create_game env.predecessor_account_id p2
                          ⟨cfg2.token_id, balance⟩ env.block_timestamp).change_state
                          GameState.Active).reward.balance = cfg2.deposit * 2
                      by_cases hseed : env.seed0 % 2 = 0 <;>
                        simp [hseed, Game.create_game, Game.change_state, hbal.1]

/-- A minimal empty contract state used to build concrete witnesses. -/
def baseC : Contract :=
  { whitelisted_tokens := [], games := [], available_players := []
    stats := [], referrers := [], next_game_id := 0
    service_fee_percentage := 1000, max_game_duration := 1000
    referrer_ratio := 9500, max_turn_duration := 100
    max_stored_games := 50, stored_games := [] }

/-- Availability record with a deposit of half the u128 bound: doubling it
overflows. -/
def cfgBig : GameConfig :=
  { token_id := 0, deposit := 2 ^ 127, opponent_id := none
    referrer_id := none, created_at := 0 }

/-- Availability record with a small deposit. -/
def cfgSmall : GameConfig :=
  { token_id := 0, deposit := 5, opponent_id := none
    referrer_id := none, created_at := 0 }

/-- C7 witness: doubling a 2 ^ 127 deposit aborts the match, and a
successful concrete match removes both availability records and creates
the session with the combined wager 10 = 2 x 5. -/
theorem C7_witness :
    ({ baseC with available_players := [(1, cfgBig), (2, cfgBig)] }).start_game
      ⟨1, 0, 5, 1⟩ 2 = none ∧
    (∃ r, ({ baseC with available_players := [(1, cfgSmall), (2, cfgSmall)] }).start_game
        ⟨1, 0, 5, 1⟩ 2 = some r ∧
      lookupA r.1.available_players 1 = none ∧
      lookupA r.1.available_players 2 = none ∧
      ∃ g, lookupA r.1.games r.2 = some g ∧ g.reward.balance = 10) := by
  constructor
  · exact (C7_start_game_guards _ ⟨1, 0, 5, 1⟩ 2).2.2.2.2.2.1 cfgBig rfl (by decide)
  · cases heq : ({ baseC with available_players := [(1, cfgSmall), (2, cfgSmall)] }).start_game
      ⟨1, 0, 5, 1⟩ 2 with
    | none => exact absurd heq (by decide)
    | some r =>
      have h7 := (C7_start_game_guards
        { baseC with available_players := [(1, cfgSmall), (2, cfgSmall)] }
        ⟨1, 0, 5, 1⟩ 2).2.2.2.2.2.2 r.1 r.2 (by rw [heq])
      obtain ⟨hna, hnb, g, cfg2, hcfg, hg, hbal, _⟩ := h7
      have hc2 : cfg2 = cfgSmall := by
        have : (some cfgSmall : Option GameConfig) = some cfg2 := hcfg
        exact (Option.some.injEq _ _).mp this.symm
      exact ⟨r, rfl, hna, hnb, g, hg, by rw [hbal, hc2]; rfl⟩

theorem ringPush_getLast {α : Type} (m : Nat) (l : List α) (x : α)
    (hm : 1 ≤ m) : (ringPush m l x).getLast? = some x := by
  unfold ringPush lastN
  rw [List.length_append]
  have hk : l.length + [x].length - m ≤ l.length := by simp; omega
  rw [List.drop_append_of_le_length hk, List.getLast?_concat]

theorem update_game_stored_games (c : Contract) (gid : Nat) (g : Game) :
    (c.internal_update_game gid g).stored_games = c.stored_games := rfl

theorem stop_game_stored_games (c : Contract) (gid : Nat) :
    (c.internal_stop_game gid).stored_games = c.stored_games := rfl

theorem getStats_update_game (c : Contract) (gid : Nat) (g : Game) (a : Nat) :
    getStats (c.internal_update_game gid g) a = getStats c a := rfl

theorem getStats_store_game (c : Contract) (gid : Nat) (v : GameLimitedView) (a : Nat) :
    getStats (c.internal_store_game gid v) a = getStats c a := rfl

theorem getStats_stop_game (c : Contract) (gid : Nat) (a : Nat) :
    getStats (c.internal_stop_game gid) a = getStats c a := rfl

theorem updStats_max_stored (c : Contract) (a : Nat) (f : Stats → Stats) :
    (updStats c a f).max_stored_games = c.max_stored_games := rfl

theorem applyPayouts_max_stored (t : Nat) :
    ∀ (ps : List (Nat × Nat)) (c : Contract),
      (c.applyPayouts t ps).max_stored_games = c.max_stored_games := by
  intro ps
  induction ps with
  | nil => intro c; rfl
  | cons p rest ih =>
    intro c
    show ((updStats c p.1 _).applyPayouts t rest).max_stored_games = c.max_stored_games
    rw [ih]
    rfl

theorem applyReferrals_max_stored (t : Nat) :
    ∀ (ps : List (Nat × Nat)) (c : Contract),
      (c.applyReferrals t ps).max_stored_games = c.max_stored_games := by
  intro ps
  induction ps with
  | nil => intro c; rfl
  | cons p rest ih =>
    intro c
    show ((updStats c p.1 _).applyReferrals t rest).max_stored_games = c.max_stored_games
    rw [ih]
    rfl

theorem distribute_max_stored (c : Contract) (g : Game) (w : Option Nat) :
    (c.internal_distribute_reward g w).1.max_stored_games = c.max_stored_games := by
  cases w <;>
    simp only [Contract.internal_distribute_reward, updStats_max_stored,
      applyReferrals_max_stored, applyPayouts_max_stored]

theorem update_game_max_stored (c : Contract) (gid : Nat) (g : Game) :
    (c.internal_update_game gid g).max_stored_games = c.max_stored_games := rfl

theorem store_game_stored (c : Contract) (gid : Nat) (v : GameLimitedView) :
    (c.internal_store_game gid v).stored_games =
      ringPush c.max_stored_games c.stored_games (gid, v) := rfl

theorem stop_game_games (c : Contract) (gid : Nat) :
    (c.internal_stop_game gid).games = eraseA c.games gid := rfl

theorem mem_eraseA_ne {α : Type} {l : List (Nat × α)} {k : Nat} {e : Nat × α}
    (h : e ∈ eraseA l k) : e.1 ≠ k := by
  induction l with
  | nil => simp [eraseA] at h
  | cons e0 rest ih =>
    by_cases he : e0.1 = k
    · simp only [eraseA, if_pos he] at h
      exact ih h
    · simp only [eraseA, if_neg he] at h
      rcases List.mem_cons.mp h with h1 | h1
      · rw [h1]; exact he
      · exact ih h1

/-- Effects of the stop_game settle tail: the looser penalty counter grows
by one. -/
theorem stopSettle_penalties (c : Contract) (gid : Nat) (game : Game)
    (winner looser : Nat) :
    (getStats (c.stopSettle gid game winner looser) looser).penalties_num =
      (getStats c looser).penalties_num + 1 := by
  simp only [Contract.stopSettle]
  rw [getStats_stop_game, getStats_store_game, getStats_update_game,
    distribute_penalties, getStats_updStats_self]

/-- Effects of the stop_game settle tail on everybody else: penalties are
untouched. -/
theorem stopSettle_penalties_other (c : Contract) (gid : Nat) (game : Game)
    (winner looser a : Nat) (h : a ≠ looser) :
    (getStats (c.stopSettle gid game winner looser) a).penalties_num =
      (getStats c a).penalties_num := by
  simp only [Contract.stopSettle]
  rw [getStats_stop_game, getStats_store_game, getStats_update_game,
    distribute_penalties, getStats_updStats_ne _ _ _ _ h]

/-- Effects of the stop_game settle tail: the winner victory counter grows
by one (winner and looser being different accounts). -/
theorem stopSettle_victories (c : Contract) (gid : Nat) (game : Game)
    (winner looser : Nat) (h : winner ≠ looser) :
    (getStats (c.stopSettle gid game winner looser) winner).victories_num =
      (getStats c winner).victories_num + 1 := by
  simp only [Contract.stopSettle]
  rw [getStats_stop_game, getStats_store_game, getStats_update_game,
    distribute_victories_winner, getStats_updStats_ne _ _ _ _ h]

/-- The stop_game settle tail drops the session from the games map. -/
theorem stopSettle_lookup_none (c : Contract) (gid : Nat) (game : Game)
    (winner looser : Nat) :
    lookupA (c.stopSettle gid game winner looser).games gid = none := by
  simp only [Contract.stopSettle]
  rw [stop_game_games]
  exact lookupA_eraseA_self _ _

/-- The stop_game settle tail archives Win(winner) with the winner in the
player1 field and the looser in the player2 field. -/
theorem stopSettle_archive (c : Contract) (gid : Nat) (game : Game)
    (winner looser : Nat) (hm : 1 ≤ c.max_stored_games) :
    (c.stopSettle gid game winner looser).stored_games.getLast? =
      some (gid,
        { game_result := .Win winner
          player1 := winner
          player2 := looser
          reward_or_tie_refund := ⟨game.reward.token_id,
            game.reward.balance - settleFee game.reward.balance c.service_fee_percentage⟩
          board := game.board.tiles }) := by
  simp only [Contract.stopSettle]
  rw [stop_game_stored_games, store_game_stored, ringPush_getLast]
  · rfl
  · rw [update_game_max_stored, distribute_max_stored, updStats_max_stored]
    exact hm

/-! Claim C6: stop_game failure conditions and effects. -/

/-- C6 (amended): with the session under game_id present, stop_game aborts
exactly when the session is not Active, or the caller is the current
mover, or neither the whole-game nor the per-turn bound has elapsed yet,
or — the amendment — the caller is not one of the two players; on success
the caller is declared winner (the archived snapshot records Win(caller)
with the caller in the player1 slot), the opposing player receives a
penalty in the stats ledger, the reward is settled (the caller victory
counter grows when the player slots are distinct), the snapshot is
archived, and the session is dropped. -/
theorem C6_stop_game_guards (c : Contract) (env : Env) (gid : Nat) (g : Game)
    (h : lookupA c.games gid = some g) :
    (c.stop_game env gid = none ↔
      (g.game_state ≠ GameState.Active ∨
        env.predecessor_account_id = g.current_player_account_id ∨
        ¬ (env.block_timestamp - g.initiated_at ≥ c.max_game_duration ∨
          env.block_timestamp - g.last_turn_timestamp > c.max_turn_duration) ∨
        (env.predecessor_account_id ≠ g.get_player_accounts.1 ∧
          env.predecessor_account_id ≠ g.get_player_accounts.2))) ∧
    (∀ c', c.stop_game env gid = some c' →
      (getStats c' (if env.predecessor_account_id = g.get_player_accounts.1
          then g.get_player_accounts.2 else g.get_player_accounts.1)).penalties_num =
        (getStats c (if env.predecessor_account_id = g.get_player_accounts.1
          then g.get_player_accounts.2 else g.get_player_accounts.1)).penalties_num + 1 ∧
      (g.get_player_accounts.1 ≠ g.get_player_accounts.2 →
        (getStats c' env.predecessor_account_id).victories_num =
          (getStats c env.predecessor_account_id).victories_num + 1) ∧
      lookupA c'.games gid = none ∧
      (1 ≤ c.max_stored_games → ∃ v, c'.stored_games.getLast? = some (gid, v) ∧
        v.game_result = GameResult.Win env.predecessor_account_id ∧
        v.player1 = env.predecessor_account_id ∧
        v.player2 = (if env.predecessor_account_id = g.get_player_accounts.1
          then g.get_player_accounts.2 else g.get_player_accounts.1))) := by
  have hred : c.stop_game env gid =
      (if g.game_state ≠ GameState.Active then none
      else if env.predecessor_account_id = g.current_player_account_id then none
      else if ¬ (env.block_timestamp - g.initiated_at ≥ c.max_game_duration ∨
          env.block_timestamp - g.last_turn_timestamp > c.max_turn_duration) then none
      else if env.predecessor_account_id = g.get_player_accounts.1 then
        some (c.stopSettle gid
          { g with current_duration := env.block_timestamp - g.initiated_at }
          g.get_player_accounts.1 g.get_player_accounts.2)
      else if env.predecessor_account_id = g.get_player_accounts.2 then
        some (c.stopSettle gid
          { g with current_duration := env.block_timestamp - g.initiated_at }
          g.get_player_accounts.2 g.get_player_accounts.1)
      else none) := by
    simp only [Contract.stop_game, h]
  rw [hred]
  by_cases hact : g.game_state = GameState.Active
  case neg => simp [hact]
  case pos =>
  rw [if_neg (by simp [hact])]
  by_cases hmov : env.predecessor_account_id = g.current_player_account_id
  case pos => simp [hmov]
  case neg =>
  rw [if_neg hmov]
  by_cases htime : (env.block_timestamp - g.initiated_at ≥ c.max_game_duration ∨
      env.block_timestamp - g.last_turn_timestamp > c.max_turn_duration)
  case neg =>
    rw [if_pos htime]
    simp only [true_iff]
    constructor
    · exact Or.inr (Or.inr (Or.inl htime))
    · intro c' heq
      exact absurd heq (by simp)
  case pos =>
  rw [if_neg (not_not_intro htime)]
  by_cases hp1 : env.predecessor_account_id = g.get_player_accounts.1
  case pos =>
    rw [if_pos hp1]
    constructor
    · apply iff_of_false (by simp)
      rintro (h1 | h2 | h3 | h4)
      · exact h1 hact
      · exact hmov h2
      · exact h3 htime
      · exact h4.1 hp1
    · intro c' heq
      have hc' := (Option.some.injEq _ _).mp heq
      subst hc'
      rw [if_pos hp1, ← hp1]
      refine ⟨stopSettle_penalties _ _ _ _ _, ?_, stopSettle_lookup_none _ _ _ _ _, ?_⟩
      · intro hdist
        exact stopSettle_victories _ _ _ _ _ hdist
      · intro hm
        exact ⟨_, stopSettle_archive _ _ _ _ _ hm, by rw [hp1], by rw [hp1], rfl⟩
  case neg =>
  rw [if_neg hp1]
  by_cases hp2 : env.predecessor_account_id = g.get_player_accounts.2
  case pos =>
    rw [if_pos hp2]
    constructor
    · apply iff_of_false (by simp)
      rintro (h1 | h2 | h3 | h4)
      · exact h1 hact
      · exact hmov h2
      · exact h3 htime
      · exact h4.2 hp2
    · intro c' heq
      have hc' := (Option.some.injEq _ _).mp heq
      subst hc'
      rw [if_neg hp1, ← hp2]
      refine ⟨stopSettle_penalties _ _ _ _ _, ?_, stopSettle_lookup_none _ _ _ _ _, ?_⟩
      · intro hdist
        exact stopSettle_victories _ _ _ _ _ hp1
      · intro hm
        exact ⟨_, stopSettle_archive _ _ _ _ _ hm, by rw [hp2], by rw [hp2], rfl⟩
  case neg =>
    rw [if_neg hp2]
    constructor
    · simp only [true_iff]
      exact Or.inr (Or.inr (Or.inr ⟨hp1, hp2⟩))
    · intro c' heq
      exact absurd heq (by simp)

/-- A concrete Active session between accounts 1 (slot one, mover) and 2
(slot two). -/
def gC6 : Game :=
  { players := (⟨Piece.X, 1⟩, ⟨Piece.O, 2⟩), board := emptyBoard
    current_piece := Piece.X, current_player_index := 0
    game_state := GameState.Active, initiated_at := 0, last_turn_timestamp := 0
    total_turns := 0, current_duration := 0, reward := ⟨0, 10⟩ }

/-- C6 counterexample: account 99 is not in the session; the session is
Active, 99 is not the current mover, and the whole-game bound has elapsed,
so by the claim the caller would be declared winner — but stop_game
aborts: the claim misses the not-a-player failure condition. -/
theorem C6_counterexample :
    ({ baseC with games := [(0, gC6)] }).stop_game ⟨99, 1, 5000, 0⟩ 0 = none ∧
    gC6.game_state = GameState.Active ∧
    (99 : Nat) ≠ gC6.current_player_account_id ∧
    5000 - gC6.initiated_at ≥ ({ baseC with games := [(0, gC6)] }).max_game_duration := by
  decide

/-- C6 witness: the non-mover player 2 force-stops an elapsed game and is
declared winner while player 1 is penalized and the session is dropped. -/
theorem C6_witness :
    ∃ c', ({ baseC with games := [(0, gC6)] }).stop_game ⟨2, 1, 5000, 0⟩ 0 = some c' ∧
      (getStats c' 1).penalties_num = 1 ∧
      (getStats c' 2).victories_num = 1 ∧
      lookupA c'.games 0 = none := by
  have h6 := C6_stop_game_guards { baseC with games := [(0, gC6)] }
    ⟨2, 1, 5000, 0⟩ 0 gC6 rfl
  cases heq : ({ baseC with games := [(0, gC6)] }).stop_game ⟨2, 1, 5000, 0⟩ 0 with
  | none => exact absurd (h6.1.mp heq) (by decide)
  | some c' =>
    have he := h6.2 c' heq
    refine ⟨c', rfl, ?_, ?_, he.2.2.1⟩
    · have h1 := he.1
      rw [show (if (2 : Nat) = gC6.get_player_accounts.1 then gC6.get_player_accounts.2
        else gC6.get_player_accounts.1) = 1 from rfl] at h1
      rw [h1]
      decide
    · have h2 := he.2.1 (by decide)
      rw [h2]
      decide

theorem change_state_winner_account (g : Game) (s : GameState) (w : Winner) :
    (g.change_state s).winner_account w = g.winner_account w := rfl

theorem movedGame_state (g : Game) (row col : Nat) :
    (g.movedGame row col).game_state = g.game_state := rfl

theorem movedGame_last_turn (g : Game) (row col : Nat) :
    (g.movedGame row col).last_turn_timestamp = g.last_turn_timestamp := rfl

theorem movedGame_initiated (g : Game) (row col : Nat) :
    (g.movedGame row col).initiated_at = g.initiated_at := rfl

/-- The winner-or-tie tail never touches the penalty counters: the
in-session end of a game is not the timeout-forfeiture path. -/
theorem moveFinish_penalties (c : Contract) (gid : Nat) (game : Game)
    (w : Winner) (a : Nat) :
    (getStats (c.moveFinish gid game w).1 a).penalties_num =
      (getStats c a).penalties_num := by
  simp only [Contract.moveFinish]
  rw [getStats_stop_game, getStats_store_game, distribute_penalties,
    getStats_update_game]

/-- The winner-or-tie tail credits the victory to the winning account. -/
theorem moveFinish_victories (c : Contract) (gid : Nat) (game : Game)
    (w : Winner) (wa : Nat) (hwa : game.winner_account w = some wa) :
    (getStats (c.moveFinish gid game w).1 wa).victories_num =
      (getStats c wa).victories_num + 1 := by
  simp only [Contract.moveFinish, change_state_winner_account, hwa]
  rw [getStats_stop_game, getStats_store_game, distribute_victories_winner,
    getStats_update_game]

/-- The winner-or-tie tail drops the session from the games map. -/
theorem moveFinish_lookup_none (c : Contract) (gid : Nat) (game : Game)
    (w : Winner) : lookupA (c.moveFinish gid game w).1.games gid = none := by
  simp only [Contract.moveFinish]
  rw [stop_game_games]
  exact lookupA_eraseA_self _ _

/-- The winner-or-tie tail returns the final board. -/
theorem moveFinish_tiles (c : Contract) (gid : Nat) (game : Game) (w : Winner) :
    (c.moveFinish gid game w).2 = game.board.tiles := rfl

/-- The winner-or-tie tail archives the snapshot with the session players
in slot order and the computed terminal outcome. -/
theorem moveFinish_archive (c : Contract) (gid : Nat) (game : Game)
    (w : Winner) (hm : 1 ≤ c.max_stored_games) :
    ∃ v, (c.moveFinish gid game w).1.stored_games.getLast? = some (gid, v) ∧
      v.player1 = game.get_player_accounts.1 ∧
      v.player2 = game.get_player_accounts.2 ∧
      v.game_result = (match game.winner_account w with
        | some wa => GameResult.Win wa
        | none => GameResult.Tie) ∧
      v.board = game.board.tiles := by
  refine ⟨c.moveView gid game w, ?_, rfl, rfl, rfl, rfl⟩
  simp only [Contract.moveFinish]
  rw [stop_game_stored_games, store_game_stored, ringPush_getLast]
  rw [distribute_max_stored, update_game_max_stored]
  exact hm

/-- The give_up tail archives the snapshot with its two trailing arguments
in the player1 and player2 fields (the session slot order at the call
sites) whatever account won. -/
theorem giveUpFinish_archive (c : Contract) (gid : Nat) (game : Game)
    (winner player1 player2 : Nat) (hm : 1 ≤ c.max_stored_games) :
    ∃ v, (c.giveUpFinish gid game winner player1 player2).stored_games.getLast? =
        some (gid, v) ∧
      v.player1 = player1 ∧ v.player2 = player2 ∧
      v.game_result = GameResult.Win winner := by
  refine ⟨c.giveUpView game winner player1 player2, ?_, rfl, rfl, rfl⟩
  simp only [Contract.giveUpFinish]
  rw [stop_game_stored_games, store_game_stored, ringPush_getLast]
  rw [update_game_max_stored, distribute_max_stored]
  exact hm


/-- Reduction of make_move_core on a move that produces a winner or a
tie: the call routes to the winner-or-tie tail. -/
theorem make_move_core_winner (c : Contract) (env : Env) (gid row col : Nat)
    (g : Game) (w : Winner)
    (h : lookupA c.games gid = some g)
    (hpred : env.predecessor_account_id = g.current_player_account_id)
    (hact : g.game_state = GameState.Active)
    (hmv : g.board.check_move row col = .ok ())
    (hw : (g.movedGame row col).board.winner = some w) :
    c.make_move_core env gid row col =
      some (c.moveFinish gid (g.movedGame row col) w) := by
  simp [Contract.make_move_core, h, hmv, hw, hpred, hact]

/-- Reduction of make_move_core on a valid non-winning move whose timing
violates a bound: the call routes to the timeout-forfeiture path with the
caller as the losing party, while the returned board carries the move just
played. -/
theorem make_move_core_timeout (c : Contract) (env : Env) (gid row col : Nat)
    (g : Game)
    (h : lookupA c.games gid = some g)
    (hpred : env.predecessor_account_id = g.current_player_account_id)
    (hact : g.game_state = GameState.Active)
    (hmv : g.board.check_move row col = .ok ())
    (hnw : (g.movedGame row col).board.winner = none)
    (hmt : c.max_turn_duration ≤ c.max_game_duration)
    (hviol : (g.last_turn_timestamp = 0 ∧
        env.block_timestamp - g.initiated_at > c.max_turn_duration) ∨
      (g.last_turn_timestamp ≠ 0 ∧
        env.block_timestamp - g.last_turn_timestamp > c.max_turn_duration) ∨
      env.block_timestamp - g.initiated_at > c.max_game_duration) :
    c.make_move_core env gid row col =
      some (c.internal_stop_expired_game gid env.predecessor_account_id,
        (g.movedGame row col).board.tiles) := by
  have hact2 : (g.movedGame row col).game_state = GameState.Active := hact
  simp [Contract.make_move_core, h, hmv, hnw, hpred, hact, hact2,
    movedGame_state, movedGame_last_turn, movedGame_initiated]
  rcases hviol with ⟨hz, hv⟩ | ⟨hz, hv⟩ | hv
  · rw [if_pos hz, if_pos hv]
  · rw [if_neg hz, if_pos hv]
  · by_cases hz : g.last_turn_timestamp = 0
    · rw [if_pos hz, if_pos (by omega)]
    · rw [if_neg hz]
      by_cases hgap : c.max_turn_duration < env.block_timestamp - g.last_turn_timestamp
      · rw [if_pos hgap]
      · rw [if_neg hgap, if_neg (by omega)]

/-! Claim C5: a move that produces a winner or a tie settles normally. -/

/-- C5: whenever the just-played move produces a winner or a tie, make_move
routes to the winner-or-tie tail on the swept state: the session leaves
the games map (Finished and dropped), the terminal outcome is computed and
reward settlement is invoked (the winning account victory counter grows),
a snapshot with the players in slot order is appended to the archive, the
final board is returned — and neither the per-turn nor the whole-game
timeout check is applied: no penalty counter changes on that call, whatever
the timestamps are. -/
theorem C5_winning_move (c : Contract) (env : Env) (gid row col : Nat)
    (g : Game) (w : Winner) (c1 : Contract)
    (hc1 : c.internal_ping_expired_games env.block_timestamp = c1)
    (h : lookupA c1.games gid = some g)
    (hpred : env.predecessor_account_id = g.current_player_account_id)
    (hact : g.game_state = GameState.Active)
    (hmv : g.board.check_move row col = .ok ())
    (hw : (g.movedGame row col).board.winner = some w) :
    c.make_move env gid row col = some (c1.moveFinish gid (g.movedGame row col) w) ∧
    lookupA (c1.moveFinish gid (g.movedGame row col) w).1.games gid = none ∧
    (∀ a, (getStats (c1.moveFinish gid (g.movedGame row col) w).1 a).penalties_num =
      (getStats c1 a).penalties_num) ∧
    (∀ wa, (g.movedGame row col).winner_account w = some wa →
      (getStats (c1.moveFinish gid (g.movedGame row col) w).1 wa).victories_num =
        (getStats c1 wa).victories_num + 1) ∧
    (c1.moveFinish gid (g.movedGame row col) w).2 = (g.movedGame row col).board.tiles ∧
    (1 ≤ c1.max_stored_games →
      ∃ v, (c1.moveFinish gid (g.movedGame row col) w).1.stored_games.getLast? =
          some (gid, v) ∧
        v.player1 = g.get_player_accounts.1 ∧
        v.player2 = g.get_player_accounts.2 ∧
        v.game_result = (match (g.movedGame row col).winner_account w with
          | some wa => GameResult.Win wa
          | none => GameResult.Tie)) := by
  refine ⟨?_, moveFinish_lookup_none _ _ _ _,
    fun a => moveFinish_penalties _ _ _ _ a,
    fun wa hwa => moveFinish_victories _ _ _ _ wa hwa,
    moveFinish_tiles _ _ _ _, ?_⟩
  · unfold Contract.make_move
    rw [hc1]
    exact make_move_core_winner c1 env gid row col g w h hpred hact hmv hw
  · intro hms
    obtain ⟨v, hv, hv1, hv2, hv3, _⟩ := moveFinish_archive c1 gid (g.movedGame row col) w hms
    exact ⟨v, hv, hv1, hv2, hv3⟩

/-- A session one move away from a win: four X pieces on row zero. -/
def gWin : Game :=
  { players := (⟨Piece.X, 1⟩, ⟨Piece.O, 2⟩)
    board :=
      { tiles :=
          [[some Piece.X, some Piece.X, some Piece.X, some Piece.X, none],
            [some Piece.O, some Piece.O, some Piece.O, none, none],
            [none, none, none, none, none],
            [none, none, none, none, none],
            [none, none, none, none, none]]
        winner := none }
    current_piece := Piece.X, current_player_index := 0
    game_state := GameState.Active, initiated_at := 0, last_turn_timestamp := 3
    total_turns := 7, current_duration := 3, reward := ⟨0, 10⟩ }

/-- C5 witness: completing the row wins, settles the reward to player 1,
removes the session, and records no penalty. -/
theorem C5_witness :
    ∃ r, ({ baseC with games := [(0, gWin)] }).make_move ⟨1, 1, 5, 0⟩ 0 0 4 = some r ∧
      lookupA r.1.games 0 = none ∧
      (getStats r.1 1).victories_num = 1 ∧
      (getStats r.1 1).penalties_num = 0 := by
  have h5 := C5_winning_move { baseC with games := [(0, gWin)] } ⟨1, 1, 5, 0⟩ 0 0 4
    gWin Winner.X
    (({ baseC with games := [(0, gWin)] } : Contract).internal_ping_expired_games 5)
    rfl (by decide) (by decide) (by decide) (by rfl) (by decide)
  refine ⟨_, h5.1, h5.2.1, ?_, ?_⟩
  · have hv := h5.2.2.2.1 1 (by decide)
    rw [hv]
    decide
  · have hp := h5.2.2.1 1
    rw [hp]
    decide

/-- A successful stop_game is the settle tail with the caller as winner:
with the first player slot when the caller sits there, and with the second
slot otherwise. -/
theorem stop_game_some_shape (c : Contract) (env : Env) (gid : Nat) (g : Game)
    (c' : Contract) (h : lookupA c.games gid = some g)
    (heq : c.stop_game env gid = some c') :
    (env.predecessor_account_id = g.get_player_accounts.1 ∧
      c' = c.stopSettle gid
        { g with current_duration := env.block_timestamp - g.initiated_at }
        g.get_player_accounts.1 g.get_player_accounts.2) ∨
    (env.predecessor_account_id ≠ g.get_player_accounts.1 ∧
      env.predecessor_account_id = g.get_player_accounts.2 ∧
      c' = c.stopSettle gid
        { g with current_duration := env.block_timestamp - g.initiated_at }
        g.get_player_accounts.2 g.get_player_accounts.1) := by
  simp only [Contract.stop_game, h] at heq
  split at heq
  · exact absurd heq (by simp)
  · split at heq
    · exact absurd heq (by simp)
    · split at heq
      · exact absurd heq (by simp)
      · split at heq
        · next hp1 =>
            exact Or.inl ⟨hp1, ((Option.some.injEq _ _).mp heq).symm⟩
        · next hp1 =>
            split at heq
            · next hp2 =>
                exact Or.inr ⟨hp1, hp2, ((Option.some.injEq _ _).mp heq).symm⟩
            · exact absurd heq (by simp)

/-- A successful give_up is the give-up tail: the other player wins while
the snapshot keeps both players in slot order. -/
theorem give_up_some_shape (c : Contract) (env : Env) (gid : Nat) (g : Game)
    (c' : Contract) (h : lookupA c.games gid = some g)
    (heq : c.give_up env gid = some c') :
    (env.predecessor_account_id = g.get_player_accounts.1 ∧
      c' = c.giveUpFinish gid g g.get_player_accounts.2
        g.get_player_accounts.1 g.get_player_accounts.2) ∨
    (env.predecessor_account_id ≠ g.get_player_accounts.1 ∧
      env.predecessor_account_id = g.get_player_accounts.2 ∧
      c' = c.giveUpFinish gid g g.get_player_accounts.1
        g.get_player_accounts.1 g.get_player_accounts.2) := by
  simp only [Contract.give_up, h] at heq
  split at heq
  · exact absurd heq (by simp)
  · split at heq
    · exact absurd heq (by simp)
    · split at heq
      · next hp1 =>
          exact Or.inl ⟨hp1, ((Option.some.injEq _ _).mp heq).symm⟩
      · next hp1 =>
          split at heq
          · next hp2 =>
              exact Or.inr ⟨hp1, hp2, ((Option.some.injEq _ _).mp heq).symm⟩
          · exact absurd heq (by simp)

/-! Claim C10: which accounts land in the player1/player2 fields of the
archived snapshots. -/

/-- C10: the snapshot written by stop_game stores the declared winner (the
caller) in the player1 field and the penalized looser in the player2
field, whatever the session slot order is, while the snapshots written by
give_up and by the winner-or-tie branch of make_move store the session
players in slot order. -/
theorem C10_archive_slot_order (c : Contract) (env : Env) (gid : Nat) (g : Game) :
    (∀ c', lookupA c.games gid = some g → 1 ≤ c.max_stored_games →
      c.stop_game env gid = some c' →
      ∃ v, c'.stored_games.getLast? = some (gid, v) ∧
        v.game_result = GameResult.Win env.predecessor_account_id ∧
        v.player1 = env.predecessor_account_id ∧
        v.player2 = (if env.predecessor_account_id = g.get_player_accounts.1
          then g.get_player_accounts.2 else g.get_player_accounts.1)) ∧
    (∀ c', lookupA c.games gid = some g → 1 ≤ c.max_stored_games →
      c.give_up env gid = some c' →
      ∃ v, c'.stored_games.getLast? = some (gid, v) ∧
        v.player1 = g.get_player_accounts.1 ∧
        v.player2 = g.get_player_accounts.2 ∧
        v.game_result = GameResult.Win
          (if env.predecessor_account_id = g.get_player_accounts.1
            then g.get_player_accounts.2 else g.get_player_accounts.1)) ∧
    (∀ row col (w : Winner), lookupA c.games gid = some g → 1 ≤ c.max_stored_games →
      env.predecessor_account_id = g.current_player_account_id →
      g.game_state = GameState.Active →
      g.board.check_move row col = .ok () →
      (g.movedGame row col).board.winner = some w →
      c.make_move_core env gid row col =
        some (c.moveFinish gid (g.movedGame row col) w) ∧
      ∃ v, (c.moveFinish gid (g.movedGame row col) w).1.stored_games.getLast? =
          some (gid, v) ∧
        v.player1 = g.get_player_accounts.1 ∧
        v.player2 = g.get_player_accounts.2) := by
  refine ⟨?_, ?_, ?_⟩
  · intro c' h hm heq
    rcases stop_game_some_shape c env gid g c' h heq with ⟨hp1, hc'⟩ | ⟨hp1, hp2, hc'⟩
    · subst hc'
      refine ⟨_, stopSettle_archive _ _ _ _ _ hm, by rw [hp1], hp1.symm, ?_⟩
      rw [if_pos hp1]
    · subst hc'
      refine ⟨_, stopSettle_archive _ _ _ _ _ hm, by rw [hp2], hp2.symm, ?_⟩
      rw [if_neg hp1]
  · intro c' h hm heq
    rcases give_up_some_shape c env gid g c' h heq with ⟨hp1, hc'⟩ | ⟨hp1, hp2, hc'⟩
    · subst hc'
      obtain ⟨v, hv, h1, h2, h3⟩ := giveUpFinish_archive c gid g
        g.get_player_accounts.2 g.get_player_accounts.1 g.get_player_accounts.2 hm
      exact ⟨v, hv, h1, h2, by rw [h3, if_pos hp1]⟩
    · subst hc'
      obtain ⟨v, hv, h1, h2, h3⟩ := giveUpFinish_archive c gid g
        g.get_player_accounts.1 g.get_player_accounts.1 g.get_player_accounts.2 hm
      exact ⟨v, hv, h1, h2, by rw [h3, if_neg hp1]⟩
  · intro row col w h hm hpred hact hmv hw
    refine ⟨make_move_core_winner c env gid row col g w h hpred hact hmv hw, ?_⟩
    obtain ⟨v, hv, h1, h2, _, _⟩ := moveFinish_archive c gid (g.movedGame row col) w hm
    exact ⟨v, hv, h1, h2⟩

/-- C10 witness: the slot-two account 2 force-stops the concrete session
and lands in the player1 field of the snapshot (reversed slot order),
while a give_up by the slot-one account keeps slot order with the
opponent recorded as winner. -/
theorem C10_witness :
    (∃ c', ({ baseC with games := [(0, gC6)] }).stop_game ⟨2, 1, 5000, 0⟩ 0 = some c' ∧
      ∃ v, c'.stored_games.getLast? = some (0, v) ∧ v.player1 = 2 ∧ v.player2 = 1) ∧
    (∃ c', ({ baseC with games := [(0, gC6)] }).give_up ⟨1, 1, 5, 0⟩ 0 = some c' ∧
      ∃ v, c'.stored_games.getLast? = some (0, v) ∧ v.player1 = 1 ∧ v.player2 = 2 ∧
        v.game_result = GameResult.Win 2) := by
  constructor
  · cases heq : ({ baseC with games := [(0, gC6)] }).stop_game ⟨2, 1, 5000, 0⟩ 0 with
    | none => exact absurd heq (by decide)
    | some c' =>
      obtain ⟨v, hv, _, h1, h2⟩ :=
        (C10_archive_slot_order { baseC with games := [(0, gC6)] }
          ⟨2, 1, 5000, 0⟩ 0 gC6).1 c' rfl (by decide) heq
      refine ⟨c', rfl, v, hv, h1, ?_⟩
      rw [h2]
      decide
  · cases heq : ({ baseC with games := [(0, gC6)] }).give_up ⟨1, 1, 5, 0⟩ 0 with
    | none => exact absurd heq (by decide)
    | some c' =>
      obtain ⟨v, hv, h1, h2, h3⟩ :=
        (C10_archive_slot_order { baseC with games := [(0, gC6)] }
          ⟨1, 1, 5, 0⟩ 0 gC6).2.1 c' rfl (by decide) heq
      refine ⟨c', rfl, v, hv, h1, h2, ?_⟩
      rw [h3]
      decide

theorem getStats_games_update (c : Contract) (gs : List (Nat × Game)) (a : Nat) :
    getStats { c with games := gs } a = getStats c a := rfl

theorem forceTerminate_penalties (c : Contract) (gid : Nat) (g : Game)
    (looser : Nat) :
    (getStats (c.forceTerminate gid g looser) looser).penalties_num =
      (getStats c looser).penalties_num + 1 := by
  simp only [Contract.forceTerminate]
  rw [getStats_games_update, getStats_store_game, distribute_penalties,
    getStats_updStats_self]

theorem forceTerminate_victories (c : Contract) (gid : Nat) (g : Game)
    (looser : Nat)
    (hne : (if looser = g.get_player_accounts.1 then g.get_player_accounts.2
      else g.get_player_accounts.1) ≠ looser) :
    (getStats (c.forceTerminate gid g looser)
        (if looser = g.get_player_accounts.1 then g.get_player_accounts.2
          else g.get_player_accounts.1)).victories_num =
      (getStats c (if looser = g.get_player_accounts.1 then g.get_player_accounts.2
        else g.get_player_accounts.1)).victories_num + 1 := by
  simp only [Contract.forceTerminate]
  rw [getStats_games_update, getStats_store_game, distribute_victories_winner,
    getStats_updStats_ne _ _ _ _ hne]

theorem forceTerminate_lookup_none (c : Contract) (gid : Nat) (g : Game)
    (looser : Nat) :
    lookupA (c.forceTerminate gid g looser).games gid = none := by
  simp only [Contract.forceTerminate]
  exact lookupA_eraseA_self _ _

theorem stop_expired_eq (c : Contract) (gid : Nat) (g : Game) (looser : Nat)
    (h : lookupA c.games gid = some g) :
    c.internal_stop_expired_game gid looser = c.forceTerminate gid g looser := by
  simp only [Contract.internal_stop_expired_game, h]

theorem current_player_mem (g : Game) :
    g.current_player_account_id = g.get_player_accounts.1 ∨
      g.current_player_account_id = g.get_player_accounts.2 := by
  unfold Game.current_player_account_id Game.get_player_accounts
  by_cases hz : g.current_player_index = 0
  · rw [if_pos hz]; exact Or.inl rfl
  · rw [if_neg hz]; exact Or.inr rfl

/-- The expiry sweep drops every game collection entry whose session is
Active and has exceeded a bound; this is the games projection of
internal_ping_expired_games. -/
theorem ping_games (c : Contract) (now : Nat) :
    (c.internal_ping_expired_games now).games =
      c.games.filter (fun e => ¬ decide (e.2.game_state = GameState.Active ∧
        gameExpired e.2 now c.max_game_duration c.max_turn_duration)) := rfl

/-! Claim C4: the per-turn and whole-game timeout checks inside
make_move. -/

/-- C4 (amended): the in-function timeout branches of make_move behave as
the claim describes on the state the move body actually sees: a valid
non-winning move whose timing violates the per-turn bound — from
initiation for a first move, from the previous turn otherwise — or the
whole-game bound routes to internal_stop_expired_game with the caller as
the losing party: the caller penalty counter grows, the opponent is
credited the victory, the session is dropped, and the just-played board is
returned.  However, the expiry sweep at the top of the entry point checks
the same bounds, so on the full make_move call the timed-out session has
already been evicted and the call aborts with no mutation instead. -/
theorem C4_timeout_forfeiture (c : Contract) (env : Env) (gid row col : Nat)
    (g : Game)
    (hnd : (c.games.map Prod.fst).Nodup)
    (h : lookupA c.games gid = some g)
    (hpred : env.predecessor_account_id = g.current_player_account_id)
    (hact : g.game_state = GameState.Active)
    (hmv : g.board.check_move row col = .ok ())
    (hnw : (g.movedGame row col).board.winner = none)
    (hmt : c.max_turn_duration ≤ c.max_game_duration)
    (hviol : (g.last_turn_timestamp = 0 ∧
        env.block_timestamp - g.initiated_at > c.max_turn_duration) ∨
      (g.last_turn_timestamp ≠ 0 ∧
        env.block_timestamp - g.last_turn_timestamp > c.max_turn_duration) ∨
      env.block_timestamp - g.initiated_at > c.max_game_duration) :
    c.make_move_core env gid row col =
      some (c.forceTerminate gid g env.predecessor_account_id,
        (g.movedGame row col).board.tiles) ∧
    (getStats (c.forceTerminate gid g env.predecessor_account_id)
        env.predecessor_account_id).penalties_num =
      (getStats c env.predecessor_account_id).penalties_num + 1 ∧
    (g.get_player_accounts.1 ≠ g.get_player_accounts.2 →
      (getStats (c.forceTerminate gid g env.predecessor_account_id)
          (if env.predecessor_account_id = g.get_player_accounts.1
            then g.get_player_accounts.2 else g.get_player_accounts.1)).victories_num =
        (getStats c (if env.predecessor_account_id = g.get_player_accounts.1
          then g.get_player_accounts.2 else g.get_player_accounts.1)).victories_num + 1) ∧
    lookupA (c.forceTerminate gid g env.predecessor_account_id).games gid = none ∧
    c.make_move env gid row col = none := by
  have hforce := make_move_core_timeout c env gid row col g h hpred hact hmv hnw hmt hviol
  have hexp : gameExpired g env.block_timestamp c.max_game_duration c.max_turn_duration := by
    unfold gameExpired Game.sinceLastTurn
    rcases hviol with ⟨hz, hv⟩ | ⟨hz, hv⟩ | hv
    · rw [if_pos hz]; exact Or.inr hv
    · rw [if_neg hz]; exact Or.inr hv
    · exact Or.inl hv
  refine ⟨?_, forceTerminate_penalties _ _ _ _, ?_, forceTerminate_lookup_none _ _ _ _, ?_⟩
  · rw [hforce, stop_expired_eq c gid g _ h]
  · intro hdist
    apply forceTerminate_victories
    rcases current_player_mem g with hcur | hcur
    · rw [hpred, hcur, if_pos rfl]
      exact fun hx => hdist hx.symm
    · rw [hpred, hcur, if_neg (fun hx => hdist hx.symm)]
      exact hdist
  · unfold Contract.make_move
    have hnone : lookupA (c.internal_ping_expired_games env.block_timestamp).games gid = none := by
      rw [ping_games, lookupA_filter_nodup _ _ _ _ hnd h]
      have htrue : decide (g.game_state = GameState.Active ∧
          gameExpired g env.block_timestamp c.max_game_duration c.max_turn_duration) = true :=
        decide_eq_true ⟨hact, hexp⟩
      simp [htrue]
    simp [Contract.make_move_core, hnone]

/-- An Active session whose current mover (account 1) has exceeded the
per-turn bound: last turn at 50, now 500, per-turn bound 100 in baseC. -/
def gC4 : Game :=
  { players := (⟨Piece.X, 1⟩, ⟨Piece.O, 2⟩), board := emptyBoard
    current_piece := Piece.X, current_player_index := 0
    game_state := GameState.Active, initiated_at := 0, last_turn_timestamp := 50
    total_turns := 3, current_duration := 50, reward := ⟨0, 10⟩ }

/-- C4 counterexample: account 1 plays a valid non-winning move at
timestamp 500 with the per-turn gap 450 exceeding the bound 100; by the
claim the call would force-terminate the game penalizing the caller, but
the full make_move call aborts with no state mutation: the spec-modelled
expiry sweep has already evicted the timed-out session before the move
body runs, so the in-function forfeiture branch is not what the call
performs. -/
theorem C4_counterexample :
    gC4.game_state = GameState.Active ∧
    gC4.current_player_account_id = 1 ∧
    gC4.board.check_move 0 0 = .ok () ∧
    (gC4.movedGame 0 0).board.winner = none ∧
    500 - gC4.last_turn_timestamp >
      ({ baseC with games := [(0, gC4)] }).max_turn_duration ∧
    ({ baseC with games := [(0, gC4)] }).make_move ⟨1, 0, 500, 0⟩ 0 0 0 = none := by
  refine ⟨by decide, by decide, by rfl, by decide, by decide, ?_⟩
  exact (C4_timeout_forfeiture { baseC with games := [(0, gC4)] } ⟨1, 0, 500, 0⟩
    0 0 0 gC4 (by decide) rfl (by decide) (by decide) (by rfl) (by decide)
    (by decide) (Or.inr (Or.inl ⟨by decide, by decide⟩))).2.2.2.2

/-- C4 witness: the same scenario through the move body alone: the core
routes to the forfeiture tail, the caller is penalized, the opponent wins,
and the session is dropped. -/
theorem C4_witness :
    ({ baseC with games := [(0, gC4)] }).make_move_core ⟨1, 0, 500, 0⟩ 0 0 0 =
      some (({ baseC with games := [(0, gC4)] }).forceTerminate 0 gC4 1,
        (gC4.movedGame 0 0).board.tiles) ∧
    (getStats (({ baseC with games := [(0, gC4)] }).forceTerminate 0 gC4 1) 1).penalties_num = 1 ∧
    (getStats (({ baseC with games := [(0, gC4)] }).forceTerminate 0 gC4 1) 2).victories_num = 1 ∧
    lookupA (({ baseC with games := [(0, gC4)] }).forceTerminate 0 gC4 1).games 0 = none := by
  have h4 := C4_timeout_forfeiture { baseC with games := [(0, gC4)] } ⟨1, 0, 500, 0⟩
    0 0 0 gC4 (by decide) rfl (by decide) (by decide) (by rfl) (by decide)
    (by decide) (Or.inr (Or.inl ⟨by decide, by decide⟩))
  refine ⟨h4.1, ?_, ?_, h4.2.2.2.1⟩
  · have := h4.2.1
    rw [this]
    decide
  · have := h4.2.2.1 (by decide)
    rw [show (if (1 : Nat) = gC4.get_player_accounts.1 then gC4.get_player_accounts.2
      else gC4.get_player_accounts.1) = 2 from rfl] at this
    rw [this]
    decide

theorem store_game_games (c : Contract) (gid : Nat) (v : GameLimitedView) :
    (c.internal_store_game gid v).games = c.games := rfl

theorem update_game_games (c : Contract) (gid : Nat) (g : Game) :
    (c.internal_update_game gid g).games = insertA c.games gid g := rfl

theorem ping_players_eq (c : Contract) (now : Nat) :
    (c.internal_ping_expired_players now).available_players =
      c.available_players.filter (fun e => playerFresh e.2 now c.max_game_duration) := rfl

theorem moveFinish_games (c : Contract) (gid : Nat) (g0 : Game) (w : Winner) :
    (c.moveFinish gid g0 w).1.games =
      eraseA (insertA c.games gid (g0.change_state GameState.Finished)) gid := by
  show ((((c.internal_update_game gid
      (g0.change_state GameState.Finished)).internal_distribute_reward
      (g0.change_state GameState.Finished)
      ((g0.change_state GameState.Finished).winner_account w)).1.internal_store_game gid
      (c.moveView gid g0 w)).internal_stop_game gid).games = _
  rw [stop_game_games, store_game_games, distribute_games, update_game_games]

theorem giveUpFinish_games (c : Contract) (gid : Nat) (g0 : Game)
    (winner p1 p2 : Nat) :
    (c.giveUpFinish gid g0 winner p1 p2).games =
      eraseA (insertA c.games gid (g0.change_state GameState.Finished)) gid := by
  show ((((c.internal_distribute_reward g0 (some winner)).1.internal_update_game gid
      (g0.change_state GameState.Finished)).internal_store_game gid
      (c.giveUpView g0 winner p1 p2)).internal_stop_game gid).games = _
  rw [stop_game_games, store_game_games, update_game_games, distribute_games]

theorem stopSettle_games (c : Contract) (gid : Nat) (g : Game)
    (winner looser : Nat) :
    (c.stopSettle gid g winner looser).games =
      eraseA (insertA c.games gid (g.change_state GameState.Finished)) gid := by
  show (((((updStats c looser
      (fun st => { st with penalties_num := st.penalties_num + 1
      })).internal_distribute_reward g (some winner)).1.internal_update_game gid
      (g.change_state GameState.Finished)).internal_store_game gid _).internal_stop_game
      gid).games = _
  rw [stop_game_games, store_game_games, update_game_games, distribute_games,
    updStats_games]

theorem forceTerminate_games (c : Contract) (gid : Nat) (g : Game) (looser : Nat) :
    (c.forceTerminate gid g looser).games = eraseA c.games gid := by
  show eraseA ((((updStats c looser
      (fun st => { st with penalties_num := st.penalties_num + 1
      })).internal_distribute_reward g _).1.internal_store_game gid _).games) gid = _
  rw [store_game_games, distribute_games, updStats_games]

theorem stop_expired_games_other (c : Contract) (gid looser id : Nat)
    (hid : id ≠ gid) :
    lookupA (c.internal_stop_expired_game gid looser).games id =
      lookupA c.games id := by
  unfold Contract.internal_stop_expired_game
  split
  · rfl
  · rw [forceTerminate_games, lookupA_eraseA_ne _ _ _ hid]

/-- The availability records surviving a successful make_available are the
fresh ones plus the caller record the call just created. -/
theorem make_available_records (c : Contract) (env : Env)
    (cfg : Option GameConfigNear) (c' : Contract)
    (heq : c.make_available env cfg = some c') :
    ∀ a rec, lookupA c'.available_players a = some rec →
      env.block_timestamp - rec.created_at ≤
        c.max_game_duration + MAX_TIME_TO_BE_AVAILABLE := by
  intro a rec hrec
  simp only [Contract.make_available] at heq
  split at heq
  · exact absurd heq (by simp)
  · split at heq
    · exact absurd heq (by simp)
    · have hav := congrArg Contract.available_players ((Option.some.injEq _ _).mp heq)
      rw [maybe_referrer_available_players] at hav
      rw [← hav] at hrec
      dsimp only at hrec
      by_cases ha : a = env.predecessor_account_id
      · subst ha
        rw [lookupA_insertA_self] at hrec
        have hca : rec.created_at = env.block_timestamp := by
          have h2 := (Option.some.injEq _ _).mp hrec
          rw [← h2]
        rw [hca]
        omega
      · rw [lookupA_insertA_ne _ _ _ _ ha] at hrec
        rw [ping_players_eq] at hrec
        have hmem := lookupA_mem hrec
        have hkeep := (List.mem_filter.mp hmem).2
        simp only [playerFresh] at hkeep
        simp at hkeep
        omega

/-- A successful make_move leaves no other stale Active session behind:
every surviving session with a different identifier has been screened by
the sweep. -/
theorem make_move_other_sessions (c : Contract) (env : Env)
    (gid row col : Nat) (r : Contract × Tiles)
    (heq : c.make_move env gid row col = some r) :
    ∀ id g', id ≠ gid → lookupA r.1.games id = some g' →
      g'.game_state = GameState.Active →
      ¬ gameExpired g' env.block_timestamp c.max_game_duration c.max_turn_duration := by
  intro id g' hid hlook hgact
  have hsub : lookupA r.1.games id =
      lookupA (c.internal_ping_expired_games env.block_timestamp).games id := by
    unfold Contract.make_move at heq
    generalize hc1 : c.internal_ping_expired_games env.block_timestamp = c1 at heq ⊢
    simp only [Contract.make_move_core] at heq
    split at heq
    · exact absurd heq (by simp)
    · split at heq
      · exact absurd heq (by simp)
      · split at heq
        · exact absurd heq (by simp)
        · split at heq
          · exact absurd heq (by simp)
          · split at heq
            · have hr := (Option.some.injEq _ _).mp heq
              rw [← hr]
              rw [moveFinish_games, lookupA_eraseA_ne _ _ _ hid,
                lookupA_insertA_ne _ _ _ _ hid]
            · split at heq
              · split at heq
                · split at heq
                  · have hr := (Option.some.injEq _ _).mp heq
                    rw [← hr]
                    dsimp only
                    exact stop_expired_games_other c1 gid _ id hid
                  · have hr := (Option.some.injEq _ _).mp heq
                    rw [← hr]
                    dsimp only
                    rw [update_game_games, lookupA_insertA_ne _ _ _ _ hid]
                · split at heq
                  · have hr := (Option.some.injEq _ _).mp heq
                    rw [← hr]
                    dsimp only
                    exact stop_expired_games_other c1 gid _ id hid
                  · split at heq
                    · have hr := (Option.some.injEq _ _).mp heq
                      rw [← hr]
                      dsimp only
                      rw [update_game_games, lookupA_insertA_ne _ _ _ _ hid]
                    · have hr := (Option.some.injEq _ _).mp heq
                      rw [← hr]
                      dsimp only
                      exact stop_expired_games_other c1 gid _ id hid
              · exact absurd heq (by simp)
  rw [hsub, ping_games] at hlook
  have hmem := lookupA_mem hlook
  have hkeep := (List.mem_filter.mp hmem).2
  intro hexp
  simp at hkeep
  rcases hkeep with h | h
  · exact absurd hgact h
  · exact absurd hexp h

/-- Claim C2 (amended): only make_available and make_move run the expiry
sweep synchronously before their own mutation — after a successful
make_available every surviving availability record (including the record
the call just created) is within the freshness bound, and after a
successful make_move every other surviving Active session is within its
timeout bounds; make_unavailable, start_game, give_up and stop_game
perform no sweep. -/
theorem C2_expiry_sweep :
    (∀ (c : Contract) (env : Env) (cfg : Option GameConfigNear) (c' : Contract),
      c.make_available env cfg = some c' →
      ∀ a rec, lookupA c'.available_players a = some rec →
        env.block_timestamp - rec.created_at ≤
          c.max_game_duration + MAX_TIME_TO_BE_AVAILABLE) ∧
    (∀ (c : Contract) (env : Env) (gid row col : Nat) (r : Contract × Tiles),
      c.make_move env gid row col = some r →
      ∀ id g', id ≠ gid → lookupA r.1.games id = some g' →
        g'.game_state = GameState.Active →
        ¬ gameExpired g' env.block_timestamp c.max_game_duration
          c.max_turn_duration) :=
  ⟨fun c env cfg c' h => make_available_records c env cfg c' h,
   fun c env gid row col r h => make_move_other_sessions c env gid row col r h⟩

/-- A stale availability record owned by another account. -/
def cfgStaleC2 : GameConfig :=
  { token_id := 0, deposit := MIN_DEPOSIT_NEAR, opponent_id := none
    referrer_id := none, created_at := 0 }

/-- The caller record of the make_available witness call, as created at
block time 100. -/
def cfgAv : GameConfig :=
  { token_id := NEAR_TOKEN, deposit := MIN_DEPOSIT_NEAR, opponent_id := none
    referrer_id := none, created_at := 100 }

def ctrC2 : Contract :=
  { baseC with available_players := [(1, cfgAv), (2, cfgStaleC2)] }

/-- Claim C2 counterexample: make_unavailable is a state-mutating entry
point, yet a call by account 1 succeeds and leaves account 2's
availability record untouched even though that record is far beyond the
eviction bound — no sweep ran. -/
theorem C2_counterexample :
    (10 ^ 13 : Nat) - cfgStaleC2.created_at >
      ctrC2.max_game_duration + MAX_TIME_TO_BE_AVAILABLE ∧
    (ctrC2.make_unavailable ⟨1, 1, 10 ^ 13, 0⟩).map
      (fun c' => lookupA c'.available_players 2) = some (some cfgStaleC2) :=
  ⟨by decide, rfl⟩

def envAv : Env := ⟨1, MIN_DEPOSIT_NEAR, 100, 0⟩

def cAv : Contract := { baseC with available_players := [(1, cfgAv)] }

/-- A fresh Active session untouched by the make_move witness call. -/
def gOtherC2 : Game :=
  { players := (⟨Piece.X, 3⟩, ⟨Piece.O, 4⟩)
    board := emptyBoard
    current_piece := Piece.X, current_player_index := 0
    game_state := GameState.Active, initiated_at := 4, last_turn_timestamp := 0
    total_turns := 0, current_duration := 0, reward := ⟨0, 10⟩ }

def mctrC2 : Contract :=
  { baseC with games := [(0, gWin), (8, gOtherC2)] }

def envMv : Env := ⟨1, 1, 5, 0⟩

def mresC2 : Contract × Tiles :=
  (mctrC2.make_move envMv 0 0 4).getD (mctrC2, [])

theorem C2_witness :
    (envAv.block_timestamp - cfgAv.created_at ≤
      baseC.max_game_duration + MAX_TIME_TO_BE_AVAILABLE) ∧
    ¬ gameExpired gOtherC2 envMv.block_timestamp mctrC2.max_game_duration
      mctrC2.max_turn_duration := by
  constructor
  · exact C2_expiry_sweep.1 baseC envAv none cAv (by rfl) 1 cfgAv (by rfl)
  · exact C2_expiry_sweep.2 mctrC2 envMv 0 0 4 mresC2 (by rfl) 8 gOtherC2
      (by decide) (by rfl) (by rfl)

/-! Claim C3: session invariants over every reachable contract state. -/

/-- Modelled from the spec: sec_to_nano (utils.rs is not in the provided
sources) — seconds to nanoseconds. -/
def sec_to_nano (sec : Nat) : Nat := sec * 1000000000

/-- Modelled from the spec: MAX_FEES (config.rs is not in the provided
sources) — the default total service fee, 10 percent of BASIS_P per the
comment at lib.rs line 99. -/
def MAX_FEES : Nat := 1000

/-- Modelled from the spec: MAX_NUM_TURNS (config.rs is not in the
provided sources) — the divisor producing the per-turn bound from the
whole-game bound (lib.rs line 119); the lib.rs line 103 comment pairs a
3600 second game bound with a 400 second turn bound. -/
def MAX_NUM_TURNS : Nat := 9

/-- Initialization config (config.rs Config, as consumed by new at lib.rs
lines 81-123). -/
structure Config where
  service_fee_percentage : Nat
  max_game_duration_sec : Nat
  referrer_ratio : Nat
  max_stored_games : Nat
deriving DecidableEq, Repr

/-- lib.rs lines 81-123: new.  assert_valid comes from the missing
config.rs; it can only narrow the accepted configs and no claim depends
on the accepted range, so it is modelled as accepting. -/
def Contract.new (config : Option Config) : Contract :=
  let service_fee_percentage := match config with
    | some cfg => cfg.service_fee_percentage
    | none => MAX_FEES
  let max_game_duration := match config with
    | some cfg => sec_to_nano cfg.max_game_duration_sec
    | none => sec_to_nano (60 * 60)
  let referrer_ratio := match config with
    | some cfg => cfg.referrer_ratio
    | none => 9500
  let max_stored_games := match config with
    | some cfg => cfg.max_stored_games
    | none => 50
  { whitelisted_tokens := [], games := [], available_players := []
    stats := [], referrers := [], next_game_id := 0
    service_fee_percentage := service_fee_percentage
    max_game_duration := max_game_duration
    referrer_ratio := referrer_ratio
    max_turn_duration := max_game_duration / MAX_NUM_TURNS
    max_stored_games := max_stored_games, stored_games := [] }

/-- One observable transition of the contract state: a successful public
entry point call from lib.rs, or one of the mutations of the modules not
under src/ (token whitelisting, registration by fungible-token transfer
from token_receiver.rs, and the transfer callbacks), modelled from the
spec as arbitrary rewrites of the collections they touch — none of those
modules touches the games collection. -/
inductive Step : Contract → Contract → Prop where
  | make_available (c c' : Contract) (env : Env) (cfg : Option GameConfigNear) :
      c.make_available env cfg = some c' → Step c c'
  | make_unavailable (c c' : Contract) (env : Env) :
      c.make_unavailable env = some c' → Step c c'
  | start_game (c : Contract) (env : Env) (p2 : Nat) (r : Contract × Nat) :
      c.start_game env p2 = some r → Step c r.1
  | make_move (c : Contract) (env : Env) (gid row col : Nat)
      (r : Contract × Tiles) :
      c.make_move env gid row col = some r → Step c r.1
  | give_up (c c' : Contract) (env : Env) (gid : Nat) :
      c.give_up env gid = some c' → Step c c'
  | stop_game (c c' : Contract) (env : Env) (gid : Nat) :
      c.stop_game env gid = some c' → Step c c'
  | whitelist_token (c : Contract) (t m : Nat) :
      Step c { c with whitelisted_tokens := insertA c.whitelisted_tokens t m }
  | ft_register (c : Contract) (a : Nat) (cfg : GameConfig) :
      Step c { c with available_players := insertA c.available_players a cfg }
  | bookkeeping (c : Contract) (st : List (Nat × Stats))
      (ap : List (Nat × GameConfig)) (rf : List (Nat × Nat)) :
      Step c { c with stats := st, available_players := ap, referrers := rf }

/-- Reachable contract states: produced by new followed by any finite
sequence of transitions. -/
def Reachable (c : Contract) : Prop :=
  ∃ cfg, Relation.ReflTransGen Step (Contract.new cfg) c

/-- The per-session invariant: distinct player slots, an Active state
while stored, and an even wager balance (twice one deposit). -/
def GoodGame (g : Game) : Prop :=
  g.players.1.account_id ≠ g.players.2.account_id ∧
  g.game_state = GameState.Active ∧
  ∃ d, g.reward.balance = 2 * d

/-- Every session in the games collection satisfies the session
invariant. -/
def Inv (c : Contract) : Prop := ∀ e ∈ c.games, GoodGame e.2

theorem checkedDouble_eq (d b : Nat) (h : checkedDouble d = some b) :
    b = 2 * d := by
  unfold checkedDouble at h
  split at h
  · have := (Option.some.injEq _ _).mp h
    omega
  · exact absurd h (by simp)

theorem mem_erase_insert {α : Type} {l : List (Nat × α)} {k : Nat} {v : α}
    {e : Nat × α} (h : e ∈ eraseA (insertA l k v) k) : e ∈ l := by
  have hne := mem_eraseA_ne h
  rcases mem_insertA (mem_eraseA h) with h1 | h1
  · exact h1
  · exact absurd (congrArg Prod.fst h1) hne

theorem stop_expired_mem (c : Contract) (gid looser : Nat) {e : Nat × Game}
    (h : e ∈ (c.internal_stop_expired_game gid looser).games) : e ∈ c.games := by
  unfold Contract.internal_stop_expired_game at h
  split at h
  · exact h
  · rw [forceTerminate_games] at h
    exact mem_eraseA h

theorem make_available_games (c : Contract) (env : Env)
    (cfg : Option GameConfigNear) (c' : Contract)
    (heq : c.make_available env cfg = some c') : c'.games = c.games := by
  simp only [Contract.make_available] at heq
  split at heq
  · exact absurd heq (by simp)
  · split at heq
    · exact absurd heq (by simp)
    · have h := congrArg Contract.games ((Option.some.injEq _ _).mp heq)
      rw [maybe_referrer_games] at h
      exact h.symm

theorem make_unavailable_games (c : Contract) (env : Env) (c' : Contract)
    (heq : c.make_unavailable env = some c') : c'.games = c.games := by
  simp only [Contract.make_unavailable] at heq
  split at heq
  · exact absurd heq (by simp)
  · split at heq
    · exact (congrArg Contract.games ((Option.some.injEq _ _).mp heq)).symm
    · exact absurd heq (by simp)

/-- A successful start_game pairs two availability records with equal
deposits and stores a fresh Active session under the next identifier,
with distinct players and the doubled deposit as balance. -/
theorem start_game_success (c : Contract) (env : Env) (p2 : Nat)
    (r : Contract × Nat) (heq : c.start_game env p2 = some r) :
    ∃ cfg1 cfg2 game,
      lookupA c.available_players env.predecessor_account_id = some cfg1 ∧
      lookupA c.available_players p2 = some cfg2 ∧
      cfg1.deposit = cfg2.deposit ∧
      r.2 = c.next_game_id ∧
      r.1.games = insertA c.games c.next_game_id game ∧
      game.players.1.account_id ≠ game.players.2.account_id ∧
      game.game_state = GameState.Active ∧
      game.reward.balance = 2 * cfg2.deposit := by
  simp only [Contract.start_game] at heq
  split at heq
  · exact absurd heq (by simp)
  · next cfg2 hl2 =>
    split at heq
    · exact absurd heq (by simp)
    · next hp12 =>
      split at heq
      · exact absurd heq (by simp)
      · next cfg1 hl1 =>
        split at heq
        · exact absurd heq (by simp)
        · split at heq
          · exact absurd heq (by simp)
          · next hdep =>
            split at heq
            · exact absurd heq (by simp)
            · split at heq
              · exact absurd heq (by simp)
              · next balance hcd =>
                have hr := (Option.some.injEq _ _).mp heq
                have hr2 : r.2 = c.next_game_id := by rw [← hr]
                have hg := congrArg (fun p => Contract.games p.1) hr
                dsimp only at hg
                rw [updStats_games, updStats_games, maybe_referrer_games,
                  maybe_referrer_games] at hg
                dsimp only at hg
                have hb := checkedDouble_eq cfg2.deposit balance hcd
                refine ⟨cfg1, cfg2,
                  (if env.seed0 % 2 = 0 then
                      Game.create_game p2 env.predecessor_account_id
                        ⟨cfg2.token_id, balance⟩ env.block_timestamp
                    else
                      Game.create_game env.predecessor_account_id p2
                        ⟨cfg2.token_id, balance⟩ env.block_timestamp).change_state
                    GameState.Active,
                  hl1, hl2, not_not.mp hdep, hr2, hg.symm, ?_, rfl, ?_⟩
                · by_cases hs : env.seed0 % 2 = 0
                  · simp only [if_pos hs]
                    exact fun hh => hp12 hh.symm
                  · simp only [if_neg hs]
                    exact hp12
                · by_cases hs : env.seed0 % 2 = 0
                  · simp only [if_pos hs]
                    exact hb
                  · simp only [if_neg hs]
                    exact hb

theorem movedGame_players (g : Game) (row col : Nat) :
    (g.movedGame row col).players = g.players := rfl

theorem movedGame_reward (g : Game) (row col : Nat) :
    (g.movedGame row col).reward = g.reward := rfl

/-- Every session surviving a successful make_move is either an untouched
old session or the re-stored current session, with players, Active state
and reward carried over from a stored original. -/
theorem make_move_mem (c : Contract) (env : Env) (gid row col : Nat)
    (r : Contract × Tiles) (heq : c.make_move env gid row col = some r) :
    ∀ e ∈ r.1.games, e ∈ c.games ∨
      ∃ g0, (gid, g0) ∈ c.games ∧ e.1 = gid ∧ e.2.players = g0.players ∧
        e.2.game_state = GameState.Active ∧ e.2.reward = g0.reward := by
  intro e he
  unfold Contract.make_move at heq
  generalize hc1 : c.internal_ping_expired_games env.block_timestamp = c1 at heq
  have hsub : ∀ x : Nat × Game, x ∈ c1.games → x ∈ c.games := by
    intro x hx
    rw [← hc1, ping_games] at hx
    exact (List.mem_filter.mp hx).1
  simp only [Contract.make_move_core] at heq
  split at heq
  · exact absurd heq (by simp)
  · next game0 hlook =>
    split at heq
    · exact absurd heq (by simp)
    · split at heq
      · exact absurd heq (by simp)
      · split at heq
        · exact absurd heq (by simp)
        · split at heq
          · have hr := (Option.some.injEq _ _).mp heq
            rw [← hr, moveFinish_games] at he
            exact Or.inl (hsub e (mem_erase_insert he))
          · split at heq
            · next hact =>
              split at heq
              · split at heq
                · have hr := (Option.some.injEq _ _).mp heq
                  rw [← hr] at he
                  dsimp only at he
                  exact Or.inl (hsub e (stop_expired_mem c1 gid _ he))
                · have hr := (Option.some.injEq _ _).mp heq
                  rw [← hr] at he
                  dsimp only at he
                  rw [update_game_games] at he
                  rcases mem_insertA he with h1 | h1
                  · exact Or.inl (hsub e h1)
                  · subst h1
                    exact Or.inr ⟨game0, hsub _ (lookupA_mem hlook), rfl, rfl,
                      hact, rfl⟩
              · split at heq
                · have hr := (Option.some.injEq _ _).mp heq
                  rw [← hr] at he
                  dsimp only at he
                  exact Or.inl (hsub e (stop_expired_mem c1 gid _ he))
                · split at heq
                  · have hr := (Option.some.injEq _ _).mp heq
                    rw [← hr] at he
                    dsimp only at he
                    rw [update_game_games] at he
                    rcases mem_insertA he with h1 | h1
                    · exact Or.inl (hsub e h1)
                    · subst h1
                      exact Or.inr ⟨game0, hsub _ (lookupA_mem hlook), rfl, rfl,
                        hact, rfl⟩
                  · have hr := (Option.some.injEq _ _).mp heq
                    rw [← hr] at he
                    dsimp only at he
                    exact Or.inl (hsub e (stop_expired_mem c1 gid _ he))
            · exact absurd heq (by simp)

theorem give_up_mem (c : Contract) (env : Env) (gid : Nat) (c' : Contract)
    (heq : c.give_up env gid = some c') : ∀ e ∈ c'.games, e ∈ c.games := by
  intro e he
  simp only [Contract.give_up] at heq
  split at heq
  · exact absurd heq (by simp)
  · split at heq
    · exact absurd heq (by simp)
    · split at heq
      · exact absurd heq (by simp)
      · split at heq
        · have hr := (Option.some.injEq _ _).mp heq
          rw [← hr, giveUpFinish_games] at he
          exact mem_erase_insert he
        · split at heq
          · have hr := (Option.some.injEq _ _).mp heq
            rw [← hr, giveUpFinish_games] at he
            exact mem_erase_insert he
          · exact absurd heq (by simp)

theorem stop_game_mem (c : Contract) (env : Env) (gid : Nat) (c' : Contract)
    (heq : c.stop_game env gid = some c') : ∀ e ∈ c'.games, e ∈ c.games := by
  intro e he
  simp only [Contract.stop_game] at heq
  split at heq
  · exact absurd heq (by simp)
  · split at heq
    · exact absurd heq (by simp)
    · split at heq
      · exact absurd heq (by simp)
      · split at heq
        · exact absurd heq (by simp)
        · split at heq
          · have hr := (Option.some.injEq _ _).mp heq
            rw [← hr, stopSettle_games] at he
            exact mem_erase_insert he
          · split at heq
            · have hr := (Option.some.injEq _ _).mp heq
              rw [← hr, stopSettle_games] at he
              exact mem_erase_insert he
            · exact absurd heq (by simp)

theorem step_preserves_inv (c c' : Contract) (hs : Step c c') (hinv : Inv c) :
    Inv c' := by
  cases hs
  case make_available env cfg heq =>
    intro e he
    rw [make_available_games c env cfg c' heq] at he
    exact hinv e he
  case make_unavailable env heq =>
    intro e he
    rw [make_unavailable_games c env c' heq] at he
    exact hinv e he
  case start_game env p2 r heq =>
    intro e he
    obtain ⟨cfg1, cfg2, game, _, _, _, _, hgames, hne, hact, hbal⟩ :=
      start_game_success c env p2 r heq
    rw [hgames] at he
    rcases mem_insertA he with h1 | h1
    · exact hinv e h1
    · subst h1
      exact ⟨hne, hact, cfg2.deposit, hbal⟩
  case make_move env gid row col r heq =>
    intro e he
    rcases make_move_mem c env gid row col r heq e he with
      h1 | ⟨g0, hg0, _, hp, hact, hw⟩
    · exact hinv e h1
    · obtain ⟨hne, _, d, hbal⟩ := hinv (gid, g0) hg0
      exact ⟨by rw [hp]; exact hne, hact, d, by rw [hw]; exact hbal⟩
  case give_up env gid heq =>
    exact fun e he => hinv e (give_up_mem c env gid c' heq e he)
  case stop_game env gid heq =>
    exact fun e he => hinv e (stop_game_mem c env gid c' heq e he)
  case whitelist_token t m =>
    exact fun e he => hinv e he
  case ft_register a cfg =>
    exact fun e he => hinv e he
  case bookkeeping st ap rf =>
    exact fun e he => hinv e he

theorem reachable_inv (c : Contract) (h : Reachable c) : Inv c := by
  obtain ⟨cfg, hsteps⟩ := h
  induction hsteps with
  | refl =>
    intro e he
    have hnil : (Contract.new cfg).games = [] := rfl
    rw [hnil] at he
    exact absurd he (List.not_mem_nil e)
  | tail hab hbc ih =>
    exact step_preserves_inv _ _ hbc ih

/-- A session stored as Finished rejects every further game operation. -/
theorem finished_rejects (c : Contract) (env : Env) (gid row col : Nat)
    (g : Game) (hnd : (c.games.map Prod.fst).Nodup)
    (hl : lookupA c.games gid = some g)
    (hf : g.game_state = GameState.Finished) :
    c.make_move env gid row col = none ∧ c.give_up env gid = none ∧
    c.stop_game env gid = none := by
  have hstate : g.game_state ≠ GameState.Active := by simp [hf]
  refine ⟨?_, ?_, ?_⟩
  · have hping : lookupA
        (c.internal_ping_expired_games env.block_timestamp).games gid = some g := by
      rw [ping_games, lookupA_filter_nodup _ _ _ _ hnd hl]
      simp [hf]
    unfold Contract.make_move
    simp only [Contract.make_move_core, hping]
    by_cases hcur : env.predecessor_account_id ≠ g.current_player_account_id
    · rw [if_pos hcur]
    · rw [if_neg hcur, if_pos hstate]
  · unfold Contract.give_up
    by_cases hd : env.attached_deposit ≠ 1
    · rw [if_pos hd]
    · rw [if_neg hd]
      simp only [hl]
      rw [if_pos hstate]
  · unfold Contract.stop_game
    simp only [hl]
    rw [if_pos hstate]

/-- Claim C3: in every reachable contract state each stored session holds
two distinct player accounts, is Active while stored, and carries an even
wager balance; a successful start_game creates the session from two equal
deposits with balance exactly twice one deposit and distinct players; and
a session in the Finished state rejects make_move, give_up and stop_game,
so it can never return to Active. -/
theorem C3_session_invariants :
    (∀ c : Contract, Reachable c → Inv c) ∧
    (∀ (c : Contract) (env : Env) (p2 : Nat) (r : Contract × Nat),
      c.start_game env p2 = some r →
      ∃ cfg1 cfg2 game,
        lookupA c.available_players env.predecessor_account_id = some cfg1 ∧
        lookupA c.available_players p2 = some cfg2 ∧
        cfg1.deposit = cfg2.deposit ∧
        lookupA r.1.games r.2 = some game ∧
        game.players.1.account_id ≠ game.players.2.account_id ∧
        game.reward.balance = 2 * cfg2.deposit) ∧
    (∀ (c : Contract) (env : Env) (gid row col : Nat) (g : Game),
      (c.games.map Prod.fst).Nodup →
      lookupA c.games gid = some g → g.game_state = GameState.Finished →
      c.make_move env gid row col = none ∧ c.give_up env gid = none ∧
      c.stop_game env gid = none) := by
  refine ⟨reachable_inv, ?_, fun c env gid row col g hnd hl hf =>
    finished_rejects c env gid row col g hnd hl hf⟩
  intro c env p2 r heq
  obtain ⟨cfg1, cfg2, game, hl1, hl2, hdep, hr2, hgames, hne, _, hbal⟩ :=
    start_game_success c env p2 r heq
  exact ⟨cfg1, cfg2, game, hl1, hl2, hdep,
    by rw [hr2, hgames]; exact lookupA_insertA_self _ _ _, hne, hbal⟩

def cStartC3 : Contract :=
  { baseC with available_players := [(1, cfgSmall), (2, cfgSmall)] }

def envStC3 : Env := ⟨1, 0, 5, 1⟩

def rStartC3 : Contract × Nat := (cStartC3.start_game envStC3 2).getD (cStartC3, 0)

def gFinC3 : Game := gWin.change_state GameState.Finished

def cFinC3 : Contract := { baseC with games := [(9, gFinC3)] }

def envFinC3 : Env := ⟨1, 1, 5, 0⟩

theorem C3_witness :
    Inv (Contract.new none) ∧
    (∃ cfg1 cfg2 game,
      lookupA cStartC3.available_players envStC3.predecessor_account_id = some cfg1 ∧
      lookupA cStartC3.available_players 2 = some cfg2 ∧
      cfg1.deposit = cfg2.deposit ∧
      lookupA rStartC3.1.games rStartC3.2 = some game ∧
      game.players.1.account_id ≠ game.players.2.account_id ∧
      game.reward.balance = 2 * cfg2.deposit) ∧
    (cFinC3.make_move envFinC3 9 0 0 = none ∧ cFinC3.give_up envFinC3 9 = none ∧
      cFinC3.stop_game envFinC3 9 = none) :=
  ⟨C3_session_invariants.1 (Contract.new none) ⟨none, Relation.ReflTransGen.refl⟩,
    C3_session_invariants.2.1 cStartC3 envStC3 2 rStartC3 (by rfl),
    C3_session_invariants.2.2 cFinC3 envFinC3 9 0 0 gFinC3 (by decide)
      (by rfl) (by rfl)⟩

end BigTicTacToe
